import Mathlib

/-!
Verification development for the `asyncpg_vector` codec layer
(`src/asyncpg_vector/__init__.py`).

The embedding models Python values at the bit level:
* `bytes` values become `List Nat` with each entry a byte value;
* Python `float` (IEEE-754 binary64) values become their 64-bit patterns
  (`Nat`); `struct` float packing is modelled by an executable IEEE-754
  narrowing/widening engine (round-to-nearest, ties-to-even, overflow to
  `OverflowError` as in CPython `PyFloat_Pack4`/`PyFloat_Pack2`; NaN payloads
  are truncated and quieted as on mainstream hardware);
* fallible operations return `Except Err`;
* Python slice and item-assignment semantics (negative, end-relative
  indices; clamping) are modelled explicitly;
* `struct` formats without a byte-order prefix use host-native byte order;
  the model fixes the host to little-endian, which is the byte order of all
  mainstream CPython platforms (x86-64, AArch64);
* `base64.b64decode` is modelled for canonical base64 text (the standard
  alphabet, correct `=` padding); the lenient skipping of foreign characters
  performed by CPython is not modelled, which is immaterial here because
  every property below either quantifies over successfully decoded strings
  or evaluates the decoder on canonical text.
-/

namespace AsyncpgVector

/-- Model of a Python `bytes` value: a list of byte values. -/
abbrev Bytes := List Nat

/-- Bit pattern of a Python `float` (IEEE-754 binary64). -/
abbrev F64 := Nat

/-- Errors raised by the codec layer.  Message payloads are elided except
for offending type names, which the adapter errors report
(`ValueError(f"unsupported type: ...")` in the source). -/
inductive Err where
  | structError : Err
  | overflowError : Err
  | formatValueError : Err
  | argumentMixError : Err
  | unsupportedListItemType : String → Err
  | unsupportedType : String → Err
  | indexError : Err
  | base64Error : Err
deriving DecidableEq, Repr

/-- Decidable equality of fallible results, for concrete evaluation. -/
instance {ε α : Type} [DecidableEq ε] [DecidableEq α] : DecidableEq (Except ε α)
  | .ok a, .ok b =>
      if h : a = b then .isTrue (by rw [h]) else .isFalse fun hc => h (Except.ok.inj hc)
  | .error e, .error f =>
      if h : e = f then .isTrue (by rw [h]) else .isFalse fun hc => h (Except.error.inj hc)
  | .ok _, .error _ => .isFalse fun hc => Except.noConfusion hc
  | .error _, .ok _ => .isFalse fun hc => Except.noConfusion hc

/-- The spec's `FormatError` class: wire bytes not matching the expected
header/length invariant (`struct.error` and the length `ValueError`s). -/
def Err.isFormatClass : Err → Bool
  | .structError => true
  | .formatValueError => true
  | _ => false

/-! ### Byte packing primitives (big-endian, as mandated by the wire format) -/

/-- `k` bytes of `w`, big-endian (the low `8*k` bits of `w`). -/
def toBytesBE : Nat → Nat → Bytes
  | 0, _ => []
  | k + 1, w => toBytesBE k (w / 256) ++ [w % 256]

/-- Big-endian value of a byte string. -/
def fromBytesBE (bs : Bytes) : Nat := bs.foldl (fun a b => a * 256 + b) 0

/-- Little-endian value of a byte string (host-native order). -/
def fromBytesLE (bs : Bytes) : Nat := fromBytesBE bs.reverse

/-- The `count` big-endian `k`-byte groups of a buffer. -/
def chunksBE (k : Nat) : Nat → Bytes → List Nat
  | 0, _ => []
  | c + 1, bs => fromBytesBE (bs.take k) :: chunksBE k c (bs.drop k)

/-- The `count` little-endian `k`-byte groups of a buffer. -/
def chunksLE (k : Nat) : Nat → Bytes → List Nat
  | 0, _ => []
  | c + 1, bs => fromBytesLE (bs.take k) :: chunksLE k c (bs.drop k)

/-- `struct.unpack` of `count` big-endian `k`-byte fields: fails with
`struct.error` unless the buffer length matches exactly. -/
def structUnpackBE (k count : Nat) (bs : Bytes) : Except Err (List Nat) :=
  if bs.length = k * count then .ok (chunksBE k count bs) else .error .structError

/-- `struct.unpack` of `count` native-order (little-endian) `k`-byte fields. -/
def structUnpackLE (k count : Nat) (bs : Bytes) : Except Err (List Nat) :=
  if bs.length = k * count then .ok (chunksLE k count bs) else .error .structError

/-- Reading of a 32-bit pattern as a signed (two's complement) integer,
as `struct` format `i` does. -/
def toSigned32 (w : Nat) : Int := if w < 2 ^ 31 then (w : Int) else (w : Int) - 2 ^ 32

/-- `struct.pack(">i", x)`: range-checked signed 32-bit big-endian. -/
def packInt32 (x : Int) : Except Err Bytes :=
  if -(2 ^ 31) ≤ x ∧ x < 2 ^ 31 then .ok (toBytesBE 4 (x % (2 ^ 32 : Int)).toNat)
  else .error .structError

/-- `struct.pack(">HH", a, b)`: two range-checked unsigned 16-bit fields. -/
def packUInt16Pair (a b : Nat) : Except Err Bytes :=
  if a < 2 ^ 16 ∧ b < 2 ^ 16 then .ok (toBytesBE 2 a ++ toBytesBE 2 b) else .error .structError

/-- `struct.unpack(">HH", bs)`. -/
def unpackUInt16Pair (bs : Bytes) : Except Err (Nat × Nat) :=
  if bs.length = 4 then .ok (fromBytesBE (bs.take 2), fromBytesBE (bs.drop 2))
  else .error .structError

/-- `struct.unpack(">iii", bs)`. -/
def unpackInt32Triple (bs : Bytes) : Except Err (Int × Int × Int) :=
  if bs.length = 12 then
    .ok (toSigned32 (fromBytesBE (bs.take 4)), toSigned32 (fromBytesBE ((bs.drop 4).take 4)),
         toSigned32 (fromBytesBE (bs.drop 8)))
  else .error .structError

/-! ### IEEE-754 bit-level engine -/

/-- An IEEE-754 binary interchange format: fraction bits and exponent bits. -/
structure FpFmt where
  mant : Nat
  expb : Nat
deriving DecidableEq

def f16fmt : FpFmt := ⟨10, 5⟩
def f32fmt : FpFmt := ⟨23, 8⟩
def f64fmt : FpFmt := ⟨52, 11⟩

def FpFmt.bias (fmt : FpFmt) : Nat := 2 ^ (fmt.expb - 1) - 1

/-- Exponent of the smallest positive (subnormal) quantum. -/
def FpFmt.qmin (fmt : FpFmt) : Int := 1 - (fmt.bias : Int) - fmt.mant

def FpFmt.sign (fmt : FpFmt) (w : Nat) : Nat := w / 2 ^ (fmt.expb + fmt.mant) % 2
def FpFmt.efield (fmt : FpFmt) (w : Nat) : Nat := w / 2 ^ fmt.mant % 2 ^ fmt.expb
def FpFmt.frac (fmt : FpFmt) (w : Nat) : Nat := w % 2 ^ fmt.mant

def FpFmt.isNaN (fmt : FpFmt) (w : Nat) : Bool :=
  fmt.efield w == 2 ^ fmt.expb - 1 && fmt.frac w != 0
def FpFmt.isInf (fmt : FpFmt) (w : Nat) : Bool :=
  fmt.efield w == 2 ^ fmt.expb - 1 && fmt.frac w == 0
def FpFmt.isZero (fmt : FpFmt) (w : Nat) : Bool := fmt.efield w == 0 && fmt.frac w == 0

/-- Integral significand `m` of a finite value `(-1)^s * m * 2^exponent`. -/
def FpFmt.significand (fmt : FpFmt) (w : Nat) : Nat :=
  if fmt.efield w = 0 then fmt.frac w else 2 ^ fmt.mant + fmt.frac w

/-- Quantum exponent of a finite value. -/
def FpFmt.exponent (fmt : FpFmt) (w : Nat) : Int :=
  if fmt.efield w = 0 then fmt.qmin else (fmt.efield w : Int) - fmt.bias - fmt.mant

/-- Assemble a bit pattern from sign, exponent field and fraction field. -/
def FpFmt.mkBits (fmt : FpFmt) (s e f : Nat) : Nat :=
  f % 2 ^ fmt.mant + 2 ^ fmt.mant * (e % 2 ^ fmt.expb + 2 ^ fmt.expb * (s % 2))

def FpFmt.infBits (fmt : FpFmt) (s : Nat) : Nat := fmt.mkBits s (2 ^ fmt.expb - 1) 0

/-- Fueled floor of the base-2 logarithm (structural recursion so that the
kernel can evaluate it). -/
def log2go : Nat → Nat → Nat
  | 0, _ => 0
  | fuel + 1, n => if n < 2 then 0 else log2go fuel (n / 2) + 1

def log2p (n : Nat) : Nat := log2go n n

/-- Right shift by `k` bits with round-to-nearest, ties-to-even. -/
def rshiftRNE (m k : Nat) : Nat :=
  let q := m / 2 ^ k
  let r := m % 2 ^ k
  if r * 2 > 2 ^ k ∨ (r * 2 = 2 ^ k ∧ q % 2 = 1) then q + 1 else q

/-- Quantum exponent a non-zero value `m * 2^e` rounds at in format `fmt`. -/
def FpFmt.roundQ (fmt : FpFmt) (m : Nat) (e : Int) : Int :=
  max ((log2p m : Int) + e - fmt.mant) fmt.qmin

/-- Integral significand of `m * 2^e` at quantum `roundQ`, rounded
to-nearest-even when bits are shifted out. -/
def FpFmt.roundN (fmt : FpFmt) (m : Nat) (e : Int) : Nat :=
  if fmt.roundQ m e ≤ e then m * 2 ^ (e - fmt.roundQ m e).toNat
  else rshiftRNE m (fmt.roundQ m e - e).toNat

/-- Encode a positive rounded significand `n < 2^(mant+1)` at quantum `Q`
(with `Q = qmin` whenever `n < 2^mant`): normal, subnormal, or overflow
to the infinity pattern. -/
def FpFmt.encodePos (fmt : FpFmt) (s n : Nat) (Q : Int) : Nat :=
  if 2 ^ fmt.mant ≤ n ∧ (2 ^ fmt.expb - 1 : Int) ≤ Q + fmt.mant + fmt.bias then fmt.infBits s
  else if n < 2 ^ fmt.mant then fmt.mkBits s 0 n
  else fmt.mkBits s (Q + fmt.mant + fmt.bias).toNat (n - 2 ^ fmt.mant)

/-- Round the finite value `(-1)^s * m * 2^e` to format `fmt`
(round-to-nearest, ties-to-even; overflow yields the infinity pattern).
A carry out of the significand (`roundN = 2^(mant+1)`) moves up one
binade. -/
def FpFmt.roundFinite (fmt : FpFmt) (s : Nat) (m : Nat) (e : Int) : Nat :=
  if m = 0 then fmt.mkBits s 0 0
  else
    if fmt.roundN m e = 2 ^ (fmt.mant + 1) then fmt.encodePos s (2 ^ fmt.mant) (fmt.roundQ m e + 1)
    else fmt.encodePos s (fmt.roundN m e) (fmt.roundQ m e)

/-- Convert a bit pattern between formats.  Finite values are rounded (exact
when widening); NaN payloads are truncated/extended and quieted. -/
def fpConvert (src dst : FpFmt) (w : Nat) : Nat :=
  let s := src.sign w
  if src.isNaN w then
    let f :=
      if src.mant ≤ dst.mant then src.frac w * 2 ^ (dst.mant - src.mant)
      else src.frac w / 2 ^ (src.mant - dst.mant)
    dst.mkBits s (2 ^ dst.expb - 1) (2 ^ (dst.mant - 1) + f % 2 ^ (dst.mant - 1))
  else if src.isInf w then dst.infBits s
  else dst.roundFinite s (src.significand w) (src.exponent w)

def f32_to_f64 (w : Nat) : F64 := fpConvert f32fmt f64fmt w
def f16_to_f64 (w : Nat) : F64 := fpConvert f16fmt f64fmt w
def f64_to_f32 (w : F64) : Nat := fpConvert f64fmt f32fmt w
def f64_to_f16 (w : F64) : Nat := fpConvert f64fmt f16fmt w

/-- `struct` packing of one `f` item (CPython `PyFloat_Pack4`): rounds to
binary32 and raises `OverflowError` when a finite input overflows. -/
def pyPack4 (w : F64) : Except Err Nat :=
  let r := f64_to_f32 w
  if f32fmt.isInf r && !(f64fmt.isInf w || f64fmt.isNaN w) then .error .overflowError
  else .ok r

/-- `struct` packing of one `e` item (CPython `PyFloat_Pack2`). -/
def pyPack2 (w : F64) : Except Err Nat :=
  let r := f64_to_f16 w
  if f16fmt.isInf r && !(f64fmt.isInf w || f64fmt.isNaN w) then .error .overflowError
  else .ok r

/-- Python `int` → `float` conversion (`PyFloat_AsDouble` on an `int`). -/
def intToF64 (n : Int) : Except Err F64 :=
  if n = 0 then .ok 0
  else
    let r := f64fmt.roundFinite (if n < 0 then 1 else 0) n.natAbs 0
    if f64fmt.isInf r then .error .overflowError else .ok r

/-- Python `x != 0` on a float: true for every non-zero pattern, NaN
included; both zeros compare equal to `0`. -/
def pyNonzero (x : F64) : Bool := !f64fmt.isZero x

/-- Python `==` on two floats: NaN is unequal to everything; the two zeros
are equal; all other values are equal exactly when their patterns are. -/
def pyFloatEq (a b : F64) : Bool :=
  if f64fmt.isNaN a || f64fmt.isNaN b then false
  else if f64fmt.isZero a && f64fmt.isZero b then true
  else a % 2 ^ 64 == b % 2 ^ 64

/-- Python `==` on two float lists. -/
def pyListEq (xs ys : List F64) : Bool :=
  xs.length == ys.length && (xs.zip ys).all fun p => pyFloatEq p.1 p.2

/-- Widening of the binary32 rounding of a double: the value the full
precision kinds hand back after a store/load round trip. -/
def roundTrip32 (x : F64) : F64 := f32_to_f64 (f64_to_f32 x)

/-- Widening of the binary16 rounding of a double. -/
def roundTrip16 (x : F64) : F64 := f16_to_f64 (f64_to_f16 x)

/-- Elementwise effect of a sparse store/load round trip: zeros (both
signs) come back as `+0.0`, everything else at binary32 precision. -/
def sparseRound (x : F64) : F64 := if pyNonzero x then roundTrip32 x else 0

/-! ### Python sequence semantics -/

/-- Clamp one slice endpoint as Python slicing does (negative values are
end-relative, then everything clamps into `[0, len]`). -/
def pyClamp (len : Nat) (i : Int) : Nat :=
  if i < 0 then ((len : Int) + i).toNat else min i.toNat len

/-- The clamped end position of a slice (`none` meaning an omitted endpoint). -/
def pyStop (len : Nat) : Option Int → Nat
  | none => len
  | some t => pyClamp len t

/-- Python `bs[start:stop]`. -/
def pySlice (bs : Bytes) (start : Int) (stop : Option Int) : Bytes :=
  (bs.drop (pyClamp bs.length start)).take (pyStop bs.length stop - pyClamp bs.length start)

/-- Python list item assignment `items[i] = x`: negative indices are
end-relative; anything out of `[-len, len)` raises `IndexError`. -/
def pySetItem (items : List F64) (i : Int) (x : F64) : Except Err (List F64) :=
  if 0 ≤ i ∧ i < (items.length : Int) then .ok (items.set i.toNat x)
  else if -(items.length : Int) ≤ i ∧ i < 0 then .ok (items.set ((items.length : Int) + i).toNat x)
  else .error .indexError

/-- The normalized (non-negative) position Python assigns through. -/
def pyNormIdx (len : Nat) (i : Int) : Nat :=
  if i < 0 then ((len : Int) + i).toNat else i.toNat

/-- The assignment loop of `SparseVector.to_float_list`. -/
def assignLoop : List F64 → List (Int × F64) → Except Err (List F64)
  | items, [] => .ok items
  | items, (i, x) :: rest => (pySetItem items i x).bind fun items2 => assignLoop items2 rest

/-- Error-free bulk assignment at already-normalized positions. -/
def setAllNat (items : List F64) (pairs : List (Nat × F64)) : List F64 :=
  pairs.foldl (fun acc p => acc.set p.1 p.2) items

/-- Effectful `map` over a list, first error wins (models `struct.pack`
of a whole argument list). -/
def exceptMapM (f : α → Except Err β) : List α → Except Err (List β)
  | [] => .ok []
  | x :: xs => (f x).bind fun y => (exceptMapM f xs).map fun ys => y :: ys

/-- `struct.pack(f">{n}f", *v)`. -/
def packFloat32List (v : List F64) : Except Err Bytes :=
  (exceptMapM pyPack4 v).map fun ws => (ws.map (toBytesBE 4)).flatten

/-- `struct.pack(f">{n}e", *v)`. -/
def packFloat16List (v : List F64) : Except Err Bytes :=
  (exceptMapM pyPack2 v).map fun ws => (ws.map (toBytesBE 2)).flatten

/-- `struct.pack(f">{n}i", *xs)`. -/
def packInt32List (xs : List Int) : Except Err Bytes :=
  (exceptMapM packInt32 xs).map List.flatten

/-! ### Dense vector codec (`DenseVector`, `Vector`, `HalfVector`) -/

/-- `Vector` (`vector`, 4 bytes per item): owns one byte buffer. -/
structure Vector where
  data : Bytes
deriving DecidableEq, Repr

/-- `HalfVector` (`halfvec`, 2 bytes per item): owns one byte buffer. -/
structure HalfVector where
  data : Bytes
deriving DecidableEq, Repr

/-- `DenseVector.__init__(data=None)`: stores the buffer unchecked, an
absent argument meaning the empty buffer. -/
def Vector.init (data : Option Bytes) : Vector := ⟨data.getD []⟩

def HalfVector.init (data : Option Bytes) : HalfVector := ⟨data.getD []⟩

/-- `DenseVector.size`: buffer length integer-divided by bytes per item. -/
def Vector.size (v : Vector) : Nat := v.data.length / 4

def HalfVector.size (v : HalfVector) : Nat := v.data.length / 2

/-- `DenseVector.to_database_binary`: `pack(">HH", size, 0) + data`. -/
def Vector.to_database_binary (v : Vector) : Except Err Bytes :=
  (packUInt16Pair v.size 0).map (· ++ v.data)

def HalfVector.to_database_binary (v : HalfVector) : Except Err Bytes :=
  (packUInt16Pair v.size 0).map (· ++ v.data)

/-- `DenseVector.from_database_binary`: unpack the 4-byte header from
`data[0:4]`, check `len(data) == 4 + bytes_per_item * size`, keep the
payload `data[4:]`. -/
def Vector.from_database_binary (data : Bytes) : Except Err Vector := do
  let hd ← unpackUInt16Pair (data.take 4)
  if data.length = 4 + 4 * hd.1 then .ok (Vector.init (some (data.drop 4)))
  else .error .formatValueError

def HalfVector.from_database_binary (data : Bytes) : Except Err HalfVector := do
  let hd ← unpackUInt16Pair (data.take 4)
  if data.length = 4 + 2 * hd.1 then .ok (HalfVector.init (some (data.drop 4)))
  else .error .formatValueError

/-- `Vector.from_float_list`: `cls(pack(f">{len(vec)}f", *vec))`. -/
def Vector.from_float_list (vec : List F64) : Except Err Vector :=
  (packFloat32List vec).map fun bs => Vector.init (some bs)

/-- `HalfVector.from_float_list`: `cls(pack(f">{len(vec)}e", *vec))`. -/
def HalfVector.from_float_list (vec : List F64) : Except Err HalfVector :=
  (packFloat16List vec).map fun bs => HalfVector.init (some bs)

/-- `Vector.to_float_list`: `unpack(f">{size}f", data)`, widened. -/
def Vector.to_float_list (v : Vector) : Except Err (List F64) :=
  (structUnpackBE 4 v.size v.data).map (List.map f32_to_f64)

/-- `HalfVector.to_float_list`: `unpack(f">{size}e", data)`, widened. -/
def HalfVector.to_float_list (v : HalfVector) : Except Err (List F64) :=
  (structUnpackBE 2 v.size v.data).map (List.map f16_to_f64)

/-! ### Sparse vector codec (`SparseVector`) -/

/-- `SparseVector`: declared dimensionality plus index and value buffers. -/
structure SparseVector where
  size : Int
  indices : Bytes
  values : Bytes
deriving DecidableEq, Repr

/-- `SparseVector.__init__(size=None, indices=None, values=None)`: all three
arguments, with an equal-length check on the two buffers, or none of them
(the canonical empty vector); any other mix raises `ValueError`. -/
def SparseVector.init (size : Option Int) (indices values : Option Bytes) :
    Except Err SparseVector :=
  match size, indices, values with
  | some s, some i, some v =>
      if i.length = v.length then .ok ⟨s, i, v⟩ else .error .formatValueError
  | none, none, none => .ok ⟨0, [], []⟩
  | _, _, _ => .error .argumentMixError

/-- `SparseVector.nnz`: `len(self._indices) // 4`. -/
def SparseVector.nnz (v : SparseVector) : Nat := v.indices.length / 4

/-- `SparseVector.to_float_list`: unpack `nnz` indices (signed 32-bit) and
`nnz` values (binary32, widened), zero-fill a list of length `size`, then
assign `items[index] = value` pairwise with Python index semantics. -/
def SparseVector.to_float_list (v : SparseVector) : Except Err (List F64) := do
  let idxs ← (structUnpackBE 4 v.nnz v.indices).map (List.map toSigned32)
  let vals ← (structUnpackBE 4 v.nnz v.values).map (List.map f32_to_f64)
  assignLoop (List.replicate v.size.toNat 0) (idxs.zip vals)

/-- The index/value pairs `enumerate` + the `value != 0` filter collect,
starting the enumeration at `k`. -/
def nonzeroEnum : Nat → List F64 → List (Nat × F64)
  | _, [] => []
  | k, x :: rest =>
      if pyNonzero x then (k, x) :: nonzeroEnum (k + 1) rest else nonzeroEnum (k + 1) rest

/-- `SparseVector.from_float_list`: collect the non-zero positions in
order, re-read the values through indexing, pack both buffers. -/
def SparseVector.from_float_list (vec : List F64) : Except Err SparseVector := do
  let idx := (nonzeroEnum 0 vec).map Prod.fst
  let vals := idx.map fun i => vec.getD i 0
  let ib ← packInt32List (idx.map (Nat.cast : Nat → Int))
  let vb ← packFloat32List vals
  SparseVector.init (some (vec.length : Int)) (some ib) (some vb)

/-- `SparseVector.to_database_binary`: `pack(">iii", size, nnz, 0)` then
the index bytes then the value bytes. -/
def SparseVector.to_database_binary (v : SparseVector) : Except Err Bytes := do
  let h1 ← packInt32 v.size
  let h2 ← packInt32 (v.nnz : Int)
  let h3 ← packInt32 0
  .ok (h1 ++ h2 ++ h3 ++ v.indices ++ v.values)

/-- `SparseVector.from_database_binary`: unpack the 12-byte header from
`data[0:12]`, slice `data[12 : 12 + 4*count]` and `data[12 + 4*count :]`
with Python slice semantics, and construct. -/
def SparseVector.from_database_binary (data : Bytes) : Except Err SparseVector := do
  let hd ← unpackInt32Triple (data.take 12)
  SparseVector.init (some hd.1) (some (pySlice data 12 (some (12 + 4 * hd.2.1))))
    (some (pySlice data (12 + 4 * hd.2.1) none))

/-- The stored indices of a sparse vector, as `to_float_list` reads them. -/
def SparseVector.storedIndices (v : SparseVector) : List Int :=
  (chunksBE 4 v.nnz v.indices).map toSigned32

/-- The stored binary32 value patterns of a sparse vector. -/
def SparseVector.storedValueBits (v : SparseVector) : List Nat :=
  chunksBE 4 v.nnz v.values

/-- The stored values widened to binary64, as `to_float_list` reads them. -/
def SparseVector.storedWideValues (v : SparseVector) : List F64 :=
  v.storedValueBits.map f32_to_f64

/-! ### Base64 float import -/

/-- Value of one character of the standard base64 alphabet. -/
def b64charVal (c : Char) : Option Nat :=
  if 65 ≤ c.toNat ∧ c.toNat ≤ 90 then some (c.toNat - 65)
  else if 97 ≤ c.toNat ∧ c.toNat ≤ 122 then some (c.toNat - 97 + 26)
  else if 48 ≤ c.toNat ∧ c.toNat ≤ 57 then some (c.toNat - 48 + 52)
  else if c = '+' then some 62
  else if c = '/' then some 63
  else none

/-- `base64.b64decode` on canonical base64 text: four-character groups,
`=` padding only at the very end. -/
def b64decode : List Char → Except Err Bytes
  | [] => .ok []
  | a :: b :: c :: d :: rest =>
      match b64charVal a, b64charVal b, b64charVal c, b64charVal d with
      | some va, some vb, some vc, some vd =>
          (b64decode rest).map fun tail =>
            (va * 4 + vb / 16) % 256 :: (vb * 16 + vc / 4) % 256 :: (vc * 64 + vd) % 256 :: tail
      | some va, some vb, some vc, none =>
          if d = '=' ∧ rest = [] then
            .ok [(va * 4 + vb / 16) % 256, (vb * 16 + vc / 4) % 256]
          else .error .base64Error
      | some va, some vb, none, none =>
          if c = '=' ∧ d = '=' ∧ rest = [] then .ok [(va * 4 + vb / 16) % 256]
          else .error .base64Error
      | _, _, _, _ => .error .base64Error
  | _ => .error .base64Error

/-- `BasicVector.from_float_base64`: decode base64, unpack the bytes as
`len // 4` native-order (little-endian host) 32-bit floats, widen, and
delegate to the kind's `from_float_list`. -/
def fromFloatBase64Via {V : Type} (fromFL : List F64 → Except Err V) (s : List Char) :
    Except Err V := do
  let bs ← b64decode s
  let ws ← structUnpackLE 4 (bs.length / 4) bs
  fromFL (ws.map f32_to_f64)

def HalfVector.from_float_base64 : List Char → Except Err HalfVector :=
  fromFloatBase64Via HalfVector.from_float_list

def SparseVector.from_float_base64 : List Char → Except Err SparseVector :=
  fromFloatBase64Via SparseVector.from_float_list

/-- `Vector.from_float_base64` (the override): `cls(b64decode(s))`. -/
def Vector.from_float_base64 (s : List Char) : Except Err Vector :=
  (b64decode s).map fun bs => Vector.init (some bs)

/-- The base-class `from_float_base64` path as it would run with
`cls = Vector` (the path the override skips). -/
def Vector.fromFloatBase64Inherited : List Char → Except Err Vector :=
  fromFloatBase64Via Vector.from_float_list

/-- Modelled from the spec: the generic base64 import path for the full
precision kind with the float reinterpretation read in big-endian (wire)
byte order instead of the host-native little-endian order the source's
prefixless `unpack` format uses. -/
def Vector.fromFloatBase64BigEndian (s : List Char) : Except Err Vector := do
  let bs ← b64decode s
  let ws ← structUnpackBE 4 (bs.length / 4) bs
  Vector.from_float_list (ws.map f32_to_f64)

/-! ### Codec adapter (`BasicVector._to_database_binary` / `_from_database_binary`) -/

/-- A runtime item of a Python list offered to the encode adapter. -/
inductive PyItem where
  | float : F64 → PyItem
  | int : Int → PyItem
  | other : String → PyItem
deriving DecidableEq

def PyItem.typeName : PyItem → String
  | .float _ => "float"
  | .int _ => "int"
  | .other tn => tn

/-- `PyFloat_AsDouble` as `struct.pack` applies it to one item: floats pass
through, ints convert, anything else raises `struct.error`. -/
def PyItem.asDouble : PyItem → Except Err F64
  | .float b => .ok b
  | .int n => intToF64 n
  | .other _ => .error .structError

/-- Any constructed vector object (the `case BasicVector()` branch
dispatches on the object, whatever its concrete kind). -/
inductive AnyVector where
  | vec : Vector → AnyVector
  | half : HalfVector → AnyVector
  | sparse : SparseVector → AnyVector
deriving DecidableEq

def AnyVector.to_database_binary : AnyVector → Except Err Bytes
  | .vec v => v.to_database_binary
  | .half v => v.to_database_binary
  | .sparse v => v.to_database_binary

/-- A runtime value offered to the encode adapter (besides `None`). -/
inductive AdapterValue where
  | obj : AnyVector → AdapterValue
  | floats : List PyItem → AdapterValue
  | other : String → AdapterValue
deriving DecidableEq

/-- `cls.from_float_list` applied to a runtime list: `struct.pack` coerces
each item through `PyFloat_AsDouble`. -/
def Vector.fromFloatListPy (items : List PyItem) : Except Err Vector :=
  (exceptMapM PyItem.asDouble items).bind Vector.from_float_list

def HalfVector.fromFloatListPy (items : List PyItem) : Except Err HalfVector :=
  (exceptMapM PyItem.asDouble items).bind HalfVector.from_float_list

def SparseVector.fromFloatListPy (items : List PyItem) : Except Err SparseVector :=
  (exceptMapM PyItem.asDouble items).bind SparseVector.from_float_list

/-- `BasicVector._to_database_binary`: `None` passes through; a vector
object encodes through its own `to_database_binary`; a non-empty list
checks that its first item is an actual `float` and goes through
`cls.from_float_list`; an empty list encodes `cls()`; anything else
raises the unsupported-type error naming the type. -/
def adapterEncode {V : Type} (fromFloatsPy : List PyItem → Except Err V) (mkEmpty : V)
    (toBin : V → Except Err Bytes) : Option AdapterValue → Except Err (Option Bytes)
  | none => .ok none
  | some (.obj a) => (a.to_database_binary).map some
  | some (.floats items) =>
      match items with
      | [] => (toBin mkEmpty).map some
      | item :: _ =>
          match item with
          | .float _ => (fromFloatsPy items).bind fun o => (toBin o).map some
          | it => .error (.unsupportedListItemType it.typeName)
  | some (.other tn) => .error (.unsupportedType tn)

/-- `BasicVector._from_database_binary`: `None` passes through, otherwise
delegate to `cls.from_database_binary`. -/
def adapterDecode {V : Type} (fromBin : Bytes → Except Err V) :
    Option Bytes → Except Err (Option V)
  | none => .ok none
  | some bs => (fromBin bs).map some

def Vector.toDatabaseBinaryAdapter : Option AdapterValue → Except Err (Option Bytes) :=
  adapterEncode Vector.fromFloatListPy (Vector.init none) Vector.to_database_binary

def HalfVector.toDatabaseBinaryAdapter : Option AdapterValue → Except Err (Option Bytes) :=
  adapterEncode HalfVector.fromFloatListPy (HalfVector.init none) HalfVector.to_database_binary

def SparseVector.emptyInit : SparseVector := ⟨0, [], []⟩

def SparseVector.toDatabaseBinaryAdapter : Option AdapterValue → Except Err (Option Bytes) :=
  adapterEncode SparseVector.fromFloatListPy SparseVector.emptyInit SparseVector.to_database_binary

def Vector.fromDatabaseBinaryAdapter : Option Bytes → Except Err (Option Vector) :=
  adapterDecode Vector.from_database_binary

def HalfVector.fromDatabaseBinaryAdapter : Option Bytes → Except Err (Option HalfVector) :=
  adapterDecode HalfVector.from_database_binary

def SparseVector.fromDatabaseBinaryAdapter : Option Bytes → Except Err (Option SparseVector) :=
  adapterDecode SparseVector.from_database_binary

/-! ### Lemmas: byte serialization -/

theorem toBytesBE_length (k w : Nat) : (toBytesBE k w).length = k := by
  induction k generalizing w with
  | zero => rfl
  | succ k ih => simp [toBytesBE, ih]

theorem toBytesBE_bytes_lt (k w : Nat) : ∀ b ∈ toBytesBE k w, b < 256 := by
  induction k generalizing w with
  | zero => simp [toBytesBE]
  | succ k ih =>
      intro b hb
      simp only [toBytesBE, List.mem_append, List.mem_singleton] at hb
      rcases hb with hb | hb
      · exact ih _ _ hb
      · subst hb; exact Nat.mod_lt _ (by norm_num)

theorem fromBytesBE_append_single (bs : Bytes) (b : Nat) :
    fromBytesBE (bs ++ [b]) = fromBytesBE bs * 256 + b := by
  simp [fromBytesBE, List.foldl_append]

theorem fromBytesBE_toBytesBE (k w : Nat) : fromBytesBE (toBytesBE k w) = w % 256 ^ k := by
  induction k generalizing w with
  | zero => simp [toBytesBE, fromBytesBE, Nat.mod_one]
  | succ k ih =>
      have hsplit : w % 256 ^ (k + 1) = w % 256 + 256 * (w / 256 % 256 ^ k) := by
        rw [show (256 : Nat) ^ (k + 1) = 256 * 256 ^ k from by ring]
        exact Nat.mod_mul
      rw [toBytesBE, fromBytesBE_append_single, ih, hsplit]
      ring

theorem fromBytesBE_lt (bs : Bytes) (h : ∀ b ∈ bs, b < 256) :
    fromBytesBE bs < 256 ^ bs.length := by
  induction bs using List.reverseRecOn with
  | nil => simp [fromBytesBE]
  | append_singleton bs b ih =>
      have hb : b < 256 := h b (by simp)
      have hbs : fromBytesBE bs < 256 ^ bs.length := ih fun x hx => h x (by simp [hx])
      rw [fromBytesBE_append_single]
      simp only [List.length_append, List.length_singleton]
      have hpow : (256 : Nat) ^ (bs.length + 1) = 256 ^ bs.length * 256 := by ring
      omega

theorem toBytesBE_fromBytesBE (bs : Bytes) (h : ∀ b ∈ bs, b < 256) :
    toBytesBE bs.length (fromBytesBE bs) = bs := by
  induction bs using List.reverseRecOn with
  | nil => rfl
  | append_singleton bs b ih =>
      have hb : b < 256 := h b (by simp)
      have ih2 := ih fun x hx => h x (by simp [hx])
      rw [fromBytesBE_append_single]
      simp only [List.length_append, List.length_singleton]
      rw [toBytesBE]
      have hdiv : (fromBytesBE bs * 256 + b) / 256 = fromBytesBE bs := by omega
      have hmod : (fromBytesBE bs * 256 + b) % 256 = b := by omega
      rw [hdiv, hmod, ih2]

theorem take_append_len (xs ys : List α) : (xs ++ ys).take xs.length = xs := by
  induction xs with
  | nil => rfl
  | cons x xs ih => simp [ih]

theorem drop_append_len (xs ys : List α) : (xs ++ ys).drop xs.length = ys := by
  induction xs with
  | nil => rfl
  | cons x xs ih => simp [ih]

theorem chunksBE_length (k c : Nat) (bs : Bytes) : (chunksBE k c bs).length = c := by
  induction c generalizing bs with
  | zero => rfl
  | succ c ih => simp [chunksBE, ih]

theorem flatten_map_toBytesBE_length (k : Nat) (ws : List Nat) :
    ((ws.map (toBytesBE k)).flatten).length = k * ws.length := by
  induction ws with
  | nil => simp
  | cons w ws ih => simp [ih, toBytesBE_length]; ring

theorem take_append_of_len (xs ys : List α) (k : Nat) (h : xs.length = k) :
    (xs ++ ys).take k = xs := by
  rw [← h]; exact take_append_len xs ys

theorem drop_append_of_len (xs ys : List α) (k : Nat) (h : xs.length = k) :
    (xs ++ ys).drop k = ys := by
  rw [← h]; exact drop_append_len xs ys

theorem chunksBE_flatten_map (k : Nat) (ws : List Nat) :
    chunksBE k ws.length ((ws.map (toBytesBE k)).flatten) = ws.map (· % 256 ^ k) := by
  induction ws with
  | nil => rfl
  | cons w ws ih =>
      simp only [List.map_cons, List.flatten_cons, List.length_cons, chunksBE]
      rw [take_append_of_len _ _ _ (toBytesBE_length k w),
        drop_append_of_len _ _ _ (toBytesBE_length k w), fromBytesBE_toBytesBE]
      exact congrArg _ ih

theorem flatten_chunksBE (k : Nat) (n : Nat) (bs : Bytes) (hlen : bs.length = k * n)
    (hb : ∀ b ∈ bs, b < 256) : ((chunksBE k n bs).map (toBytesBE k)).flatten = bs := by
  induction n generalizing bs with
  | zero =>
      have : bs = [] := List.length_eq_zero.mp (by omega)
      subst this; rfl
  | succ n ih =>
      have hlen2 : bs.length = k * n + k := by rw [hlen]; ring
      have hkle : k ≤ bs.length := by omega
      have hk : (bs.take k).length = k := by
        rw [List.length_take, Nat.min_eq_left hkle]
      simp only [chunksBE, List.map_cons, List.flatten_cons]
      rw [show toBytesBE k (fromBytesBE (bs.take k))
            = toBytesBE (bs.take k).length (fromBytesBE (bs.take k)) from by rw [hk]]
      rw [toBytesBE_fromBytesBE _ fun b hbm => hb b (List.mem_of_mem_take hbm)]
      rw [ih (bs.drop k) (by rw [List.length_drop]; omega)
        (fun b hbm => hb b (List.mem_of_mem_drop hbm))]
      exact List.take_append_drop k bs

/-! ### Lemmas: effectful map -/

theorem exceptMapM_ok_of (f : α → Except Err β) (g : α → β) (l : List α)
    (h : ∀ x ∈ l, f x = .ok (g x)) : exceptMapM f l = .ok (l.map g) := by
  induction l with
  | nil => rfl
  | cons x xs ih =>
      simp only [exceptMapM, h x (by simp), ih fun y hy => h y (by simp [hy]),
        List.map_cons, Except.bind, Except.map]

theorem exceptMapM_map_ok (f : α → Except Err β) (h0 : γ → α) (g : γ → β) (l : List γ)
    (h : ∀ x ∈ l, f (h0 x) = .ok (g x)) : exceptMapM f (l.map h0) = .ok (l.map g) := by
  induction l with
  | nil => rfl
  | cons x xs ih =>
      simp only [List.map_cons, exceptMapM, h x (by simp),
        ih fun y hy => h y (by simp [hy]), Except.bind, Except.map]

theorem exceptMapM_ok_length (f : α → Except Err β) (l : List α) (ys : List β)
    (h : exceptMapM f l = .ok ys) : ys.length = l.length := by
  induction l generalizing ys with
  | nil => simp only [exceptMapM] at h; cases h; rfl
  | cons x xs ih =>
      simp only [exceptMapM] at h
      cases hfx : f x with
      | error e => rw [hfx] at h; simp [Except.bind] at h
      | ok y =>
          rw [hfx] at h
          simp only [Except.bind] at h
          cases hrest : exceptMapM f xs with
          | error e => rw [hrest] at h; simp [Except.map] at h
          | ok zs =>
              rw [hrest] at h
              simp only [Except.map, Except.ok.injEq] at h
              subst h
              simp [ih zs hrest]

/-! ### Lemmas: bit-pattern assembly -/

theorem FpFmt.mkBits_lt (fmt : FpFmt) (s e f : Nat) :
    fmt.mkBits s e f < 2 ^ (fmt.mant + fmt.expb + 1) := by
  have hM : 0 < 2 ^ fmt.mant := Nat.pos_pow_of_pos _ (by norm_num)
  have hE : 0 < 2 ^ fmt.expb := Nat.pos_pow_of_pos _ (by norm_num)
  have h1 : f % 2 ^ fmt.mant < 2 ^ fmt.mant := Nat.mod_lt _ hM
  have h2 : e % 2 ^ fmt.expb < 2 ^ fmt.expb := Nat.mod_lt _ hE
  have h3 : s % 2 ≤ 1 := Nat.le_of_lt_succ (Nat.mod_lt _ (by norm_num))
  have h4 : 2 ^ fmt.expb * (s % 2) ≤ 2 ^ fmt.expb := by
    calc 2 ^ fmt.expb * (s % 2) ≤ 2 ^ fmt.expb * 1 := Nat.mul_le_mul_left _ h3
      _ = 2 ^ fmt.expb := Nat.mul_one _
  have h5 : e % 2 ^ fmt.expb + 2 ^ fmt.expb * (s % 2) + 1 ≤ 2 * 2 ^ fmt.expb := by omega
  have h6 : 2 ^ fmt.mant * (e % 2 ^ fmt.expb + 2 ^ fmt.expb * (s % 2) + 1)
      ≤ 2 ^ fmt.mant * (2 * 2 ^ fmt.expb) := Nat.mul_le_mul_left _ h5
  have hpow : 2 ^ (fmt.mant + fmt.expb + 1) = 2 ^ fmt.mant * (2 * 2 ^ fmt.expb) := by
    rw [pow_add, pow_add, pow_one]; ring
  unfold FpFmt.mkBits
  rw [hpow]
  rw [Nat.mul_add, Nat.mul_one] at h6
  omega

theorem FpFmt.frac_mkBits (fmt : FpFmt) (s e f : Nat) (hf : f < 2 ^ fmt.mant) :
    fmt.frac (fmt.mkBits s e f) = f := by
  unfold FpFmt.frac FpFmt.mkBits
  rw [Nat.add_mul_mod_self_left, Nat.mod_mod_of_dvd _ dvd_rfl, Nat.mod_eq_of_lt hf]

theorem FpFmt.efield_mkBits (fmt : FpFmt) (s e f : Nat) (he : e < 2 ^ fmt.expb) :
    fmt.efield (fmt.mkBits s e f) = e := by
  have hM : 0 < 2 ^ fmt.mant := Nat.pos_pow_of_pos _ (by norm_num)
  unfold FpFmt.efield FpFmt.mkBits
  rw [Nat.add_mul_div_left _ _ hM, Nat.div_eq_of_lt (Nat.mod_lt _ hM), Nat.zero_add,
    Nat.add_mul_mod_self_left, Nat.mod_mod_of_dvd _ dvd_rfl, Nat.mod_eq_of_lt he]

theorem FpFmt.sign_mkBits (fmt : FpFmt) (s e f : Nat) (hs : s < 2) :
    fmt.sign (fmt.mkBits s e f) = s := by
  have hM : 0 < 2 ^ fmt.mant := Nat.pos_pow_of_pos _ (by norm_num)
  have hE : 0 < 2 ^ fmt.expb := Nat.pos_pow_of_pos _ (by norm_num)
  unfold FpFmt.sign FpFmt.mkBits
  have hpow : 2 ^ (fmt.expb + fmt.mant) = 2 ^ fmt.mant * 2 ^ fmt.expb := by
    rw [pow_add]; ring
  have hshape : f % 2 ^ fmt.mant + 2 ^ fmt.mant * (e % 2 ^ fmt.expb + 2 ^ fmt.expb * (s % 2))
      = (f % 2 ^ fmt.mant + 2 ^ fmt.mant * (e % 2 ^ fmt.expb))
        + 2 ^ fmt.mant * 2 ^ fmt.expb * (s % 2) := by ring
  have hsmall : f % 2 ^ fmt.mant + 2 ^ fmt.mant * (e % 2 ^ fmt.expb)
      < 2 ^ fmt.mant * 2 ^ fmt.expb := by
    have h1 : f % 2 ^ fmt.mant < 2 ^ fmt.mant := Nat.mod_lt _ hM
    have h2 : e % 2 ^ fmt.expb + 1 ≤ 2 ^ fmt.expb := Nat.mod_lt _ hE
    have h3 : 2 ^ fmt.mant * (e % 2 ^ fmt.expb + 1) ≤ 2 ^ fmt.mant * 2 ^ fmt.expb :=
      Nat.mul_le_mul_left _ h2
    rw [Nat.mul_add, Nat.mul_one] at h3
    omega
  rw [hpow, hshape, Nat.add_mul_div_left _ _ (Nat.mul_pos hM hE),
    Nat.div_eq_of_lt hsmall, Nat.zero_add, Nat.mod_mod_of_dvd _ dvd_rfl,
    Nat.mod_eq_of_lt hs]

theorem FpFmt.decomp (fmt : FpFmt) (w : Nat) (hw : w < 2 ^ (fmt.mant + fmt.expb + 1)) :
    fmt.mkBits (fmt.sign w) (fmt.efield w) (fmt.frac w) = w := by
  have hM : 0 < 2 ^ fmt.mant := Nat.pos_pow_of_pos _ (by norm_num)
  have hE : 0 < 2 ^ fmt.expb := Nat.pos_pow_of_pos _ (by norm_num)
  unfold FpFmt.mkBits FpFmt.sign FpFmt.efield FpFmt.frac
  rw [Nat.mod_mod_of_dvd _ dvd_rfl, Nat.mod_mod_of_dvd _ dvd_rfl,
    Nat.mod_mod_of_dvd _ dvd_rfl]
  have hdd : w / 2 ^ (fmt.expb + fmt.mant) = w / 2 ^ fmt.mant / 2 ^ fmt.expb := by
    rw [Nat.div_div_eq_div_mul, ← pow_add, Nat.add_comm fmt.mant fmt.expb]
  have hsub2 : w / 2 ^ (fmt.expb + fmt.mant) < 2 := by
    apply Nat.div_lt_of_lt_mul
    calc w < 2 ^ (fmt.mant + fmt.expb + 1) := hw
      _ = 2 ^ (fmt.expb + fmt.mant) * 2 := by rw [pow_succ, Nat.add_comm fmt.mant fmt.expb]
  rw [Nat.mod_eq_of_lt hsub2, hdd, Nat.mod_add_div, Nat.mod_add_div]

/-! ### Lemmas: log2 and rounding shift -/

theorem log2go_spec : ∀ fuel n : Nat, n ≤ fuel → 1 ≤ n →
    2 ^ log2go fuel n ≤ n ∧ n < 2 ^ (log2go fuel n + 1) := by
  intro fuel
  induction fuel with
  | zero => intro n h1 h2; omega
  | succ fuel ih =>
      intro n h1 h2
      by_cases hn : n < 2
      · simp only [log2go, if_pos hn]
        omega
      · simp only [log2go, if_neg hn]
        have hrec := ih (n / 2) (by omega) (by omega)
        constructor
        · calc 2 ^ (log2go fuel (n / 2) + 1) = 2 * 2 ^ log2go fuel (n / 2) := by ring
            _ ≤ 2 * (n / 2) := by omega
            _ ≤ n := by omega
        · calc n < 2 * (n / 2) + 2 := by omega
            _ ≤ 2 * 2 ^ (log2go fuel (n / 2) + 1) := by omega
            _ = 2 ^ (log2go fuel (n / 2) + 1 + 1) := by ring

theorem log2p_spec (n : Nat) (h : 1 ≤ n) : 2 ^ log2p n ≤ n ∧ n < 2 ^ (log2p n + 1) :=
  log2go_spec n n le_rfl h

theorem log2p_eq (n k : Nat) (h1 : 2 ^ k ≤ n) (h2 : n < 2 ^ (k + 1)) : log2p n = k := by
  have hn : 1 ≤ n := le_trans (Nat.one_le_pow _ _ (by norm_num)) h1
  obtain ⟨hl, hr⟩ := log2p_spec n hn
  by_contra hne
  rcases Nat.lt_or_ge (log2p n) k with h | h
  · have : 2 ^ (log2p n + 1) ≤ 2 ^ k := Nat.pow_le_pow_right (by norm_num) (by omega)
    omega
  · have hk : k < log2p n := by omega
    have : 2 ^ (k + 1) ≤ 2 ^ log2p n := Nat.pow_le_pow_right (by norm_num) (by omega)
    omega

theorem rshiftRNE_mul_pow (a k : Nat) : rshiftRNE (a * 2 ^ k) k = a := by
  have hk : 0 < 2 ^ k := Nat.pos_pow_of_pos _ (by norm_num)
  unfold rshiftRNE
  rw [Nat.mul_div_cancel _ hk, Nat.mul_mod_left]
  simp only [Nat.zero_mul]
  rw [if_neg (by omega)]

/-! ### Lemmas: the binary32 → binary64 → binary32 round trip is lossless -/

theorem f64mant : f64fmt.mant = 52 := rfl
theorem f64expb : f64fmt.expb = 11 := rfl
theorem f64bias : (f64fmt.bias : Int) = 1023 := by decide
theorem f64qmin : f64fmt.qmin = -1074 := by decide
theorem f32mant : f32fmt.mant = 23 := rfl
theorem f32expb : f32fmt.expb = 8 := rfl
theorem f32bias : (f32fmt.bias : Int) = 127 := by decide
theorem f32qmin : f32fmt.qmin = -149 := by decide

theorem roundFinite64_widen_normal (s E f : Nat) (hf : f < 2 ^ 23) (hE1 : 1 ≤ E)
    (hE2 : E ≤ 254) :
    f64fmt.roundFinite s (2 ^ 23 + f) ((E : Int) - 127 - 23)
      = f64fmt.mkBits s (E + 896) (f * 2 ^ 29) := by
  have hm0 : 2 ^ 23 + f ≠ 0 := by positivity
  have hlog : log2p (2 ^ 23 + f) = 23 := log2p_eq _ 23 (by omega) (by norm_num; omega)
  have hQ : f64fmt.roundQ (2 ^ 23 + f) ((E : Int) - 127 - 23) = (E : Int) - 179 := by
    unfold FpFmt.roundQ
    rw [hlog, f64qmin, f64mant, max_eq_left (by omega)]
    omega
  have hN : f64fmt.roundN (2 ^ 23 + f) ((E : Int) - 127 - 23) = (2 ^ 23 + f) * 2 ^ 29 := by
    unfold FpFmt.roundN
    rw [hQ, if_pos (by omega),
      show ((E : Int) - 127 - 23 - ((E : Int) - 179)).toNat = 29 from by omega]
  unfold FpFmt.roundFinite
  rw [if_neg hm0, hN, hQ, f64mant,
    if_neg (show ¬(2 ^ 23 + f) * 2 ^ 29 = 2 ^ (52 + 1) from by omega)]
  unfold FpFmt.encodePos
  rw [f64mant, f64expb, f64bias,
    if_neg (by
      intro hcon
      have h2 := hcon.2
      omega)]
  rw [if_neg (by omega),
    show ((E : Int) - 179 + ((52 : Nat) : Int) + 1023).toNat = E + 896 from by push_cast; omega,
    show (2 ^ 23 + f) * 2 ^ 29 - 2 ^ 52 = f * 2 ^ 29 from by omega]

theorem roundFinite64_widen_subnormal (s f : Nat) (hf1 : 1 ≤ f) (hf2 : f < 2 ^ 23) :
    f64fmt.roundFinite s f (-149)
      = f64fmt.mkBits s (log2p f + 874) (f * 2 ^ (52 - log2p f) - 2 ^ 52) := by
  obtain ⟨hl, hr⟩ := log2p_spec f hf1
  set t := log2p f with ht
  have htle : t ≤ 22 := by
    by_contra h
    have : (2 : Nat) ^ 23 ≤ 2 ^ t := Nat.pow_le_pow_right (by norm_num) (by omega)
    omega
  have hm0 : f ≠ 0 := by omega
  have hQ : f64fmt.roundQ f (-149) = (t : Int) - 201 := by
    unfold FpFmt.roundQ
    rw [← ht, f64qmin, f64mant, max_eq_left (by omega)]
    omega
  have hN : f64fmt.roundN f (-149) = f * 2 ^ (52 - t) := by
    unfold FpFmt.roundN
    rw [hQ, if_pos (by omega),
      show ((-149 : Int) - ((t : Int) - 201)).toNat = 52 - t from by omega]
  have hlow : 2 ^ 52 ≤ f * 2 ^ (52 - t) := by
    calc (2 : Nat) ^ 52 = 2 ^ t * 2 ^ (52 - t) := by rw [← pow_add]; congr 1; omega
      _ ≤ f * 2 ^ (52 - t) := Nat.mul_le_mul_right _ hl
  have hhigh : f * 2 ^ (52 - t) < 2 ^ 53 := by
    calc f * 2 ^ (52 - t) < 2 ^ (t + 1) * 2 ^ (52 - t) :=
          (Nat.mul_lt_mul_right (Nat.pos_pow_of_pos _ (by norm_num))).mpr hr
      _ = 2 ^ 53 := by rw [← pow_add]; congr 1; omega
  unfold FpFmt.roundFinite
  rw [if_neg hm0, hN, hQ, f64mant,
    if_neg (show ¬f * 2 ^ (52 - t) = 2 ^ (52 + 1) from by norm_num; omega)]
  unfold FpFmt.encodePos
  rw [f64mant, f64expb, f64bias,
    if_neg (by
      intro hcon
      have h2 := hcon.2
      omega)]
  rw [if_neg (by omega),
    show ((t : Int) - 201 + ((52 : Nat) : Int) + 1023).toNat = t + 874 from by push_cast; omega]

theorem roundFinite32_narrow_normal (s m E : Nat) (hm1 : 2 ^ 23 ≤ m) (hm2 : m < 2 ^ 24)
    (hE1 : 1 ≤ E) (hE2 : E ≤ 254) :
    f32fmt.roundFinite s (m * 2 ^ 29) ((E : Int) + 896 - 1023 - 52)
      = f32fmt.mkBits s E (m - 2 ^ 23) := by
  have hm0 : m * 2 ^ 29 ≠ 0 := by positivity
  have hlow : 2 ^ 52 ≤ m * 2 ^ 29 := by omega
  have hhigh : m * 2 ^ 29 < 2 ^ 53 := by omega
  have hlog : log2p (m * 2 ^ 29) = 52 := log2p_eq _ 52 hlow (by norm_num; omega)
  have hQ : f32fmt.roundQ (m * 2 ^ 29) ((E : Int) + 896 - 1023 - 52) = (E : Int) - 150 := by
    unfold FpFmt.roundQ
    rw [hlog, f32qmin, f32mant, max_eq_left (by omega)]
    omega
  have hN : f32fmt.roundN (m * 2 ^ 29) ((E : Int) + 896 - 1023 - 52) = m := by
    unfold FpFmt.roundN
    rw [hQ, if_neg (by omega),
      show ((E : Int) - 150 - ((E : Int) + 896 - 1023 - 52)).toNat = 29 from by omega]
    exact rshiftRNE_mul_pow m 29
  unfold FpFmt.roundFinite
  rw [if_neg hm0, hN, hQ, f32mant,
    if_neg (show ¬m = 2 ^ (23 + 1) from by omega)]
  unfold FpFmt.encodePos
  rw [f32mant, f32expb, f32bias,
    if_neg (by
      intro hcon
      have h2 := hcon.2
      omega)]
  rw [if_neg (by omega),
    show ((E : Int) - 150 + ((23 : Nat) : Int) + 127).toNat = E from by push_cast; omega]

theorem roundFinite32_narrow_subnormal (s f t : Nat) (hf1 : 1 ≤ f) (hf2 : f < 2 ^ 23)
    (ht : t = log2p f) :
    f32fmt.roundFinite s (f * 2 ^ (52 - t)) ((t : Int) + 874 - 1023 - 52)
      = f32fmt.mkBits s 0 f := by
  obtain ⟨hl, hr⟩ := log2p_spec f hf1
  rw [← ht] at hl hr
  have htle : t ≤ 22 := by
    by_contra h
    have : (2 : Nat) ^ 23 ≤ 2 ^ t := Nat.pow_le_pow_right (by norm_num) (by omega)
    omega
  have hm0 : f * 2 ^ (52 - t) ≠ 0 := by positivity
  have hlow : 2 ^ 52 ≤ f * 2 ^ (52 - t) := by
    calc (2 : Nat) ^ 52 = 2 ^ t * 2 ^ (52 - t) := by rw [← pow_add]; congr 1; omega
      _ ≤ f * 2 ^ (52 - t) := Nat.mul_le_mul_right _ hl
  have hhigh : f * 2 ^ (52 - t) < 2 ^ 53 := by
    calc f * 2 ^ (52 - t) < 2 ^ (t + 1) * 2 ^ (52 - t) :=
          (Nat.mul_lt_mul_right (Nat.pos_pow_of_pos _ (by norm_num))).mpr hr
      _ = 2 ^ 53 := by rw [← pow_add]; congr 1; omega
  have hlog : log2p (f * 2 ^ (52 - t)) = 52 := log2p_eq _ 52 hlow (by norm_num; omega)
  have hQ : f32fmt.roundQ (f * 2 ^ (52 - t)) ((t : Int) + 874 - 1023 - 52) = -149 := by
    unfold FpFmt.roundQ
    rw [hlog, f32qmin, f32mant, max_eq_right (by omega)]
  have hN : f32fmt.roundN (f * 2 ^ (52 - t)) ((t : Int) + 874 - 1023 - 52) = f := by
    unfold FpFmt.roundN
    rw [hQ, if_neg (by omega),
      show ((-149 : Int) - ((t : Int) + 874 - 1023 - 52)).toNat = 52 - t from by omega]
    exact rshiftRNE_mul_pow f (52 - t)
  unfold FpFmt.roundFinite
  rw [if_neg hm0, hN, hQ, f32mant,
    if_neg (show ¬f = 2 ^ (23 + 1) from by omega)]
  unfold FpFmt.encodePos
  rw [f32mant, f32expb, f32bias, if_neg (by omega), if_pos (by omega)]

theorem f32mantI : (f32fmt.mant : Int) = 23 := by decide
theorem f32biasI : ((f32fmt.bias : Nat) : Int) = 127 := by decide
theorem f64mantI : (f64fmt.mant : Int) = 52 := by decide
theorem f64biasI : ((f64fmt.bias : Nat) : Int) = 1023 := by decide

theorem FpFmt.sign_lt (fmt : FpFmt) (w : Nat) : fmt.sign w < 2 :=
  Nat.mod_lt _ (by norm_num)

theorem FpFmt.efield_lt (fmt : FpFmt) (w : Nat) : fmt.efield w < 2 ^ fmt.expb :=
  Nat.mod_lt _ (Nat.pos_pow_of_pos _ (by norm_num))

theorem FpFmt.frac_lt (fmt : FpFmt) (w : Nat) : fmt.frac w < 2 ^ fmt.mant :=
  Nat.mod_lt _ (Nat.pos_pow_of_pos _ (by norm_num))

theorem FpFmt.isNaN_mkBits_of_ne (fmt : FpFmt) (s e f : Nat) (he : e < 2 ^ fmt.expb)
    (hne : e ≠ 2 ^ fmt.expb - 1) : fmt.isNaN (fmt.mkBits s e f) = false := by
  unfold FpFmt.isNaN
  rw [FpFmt.efield_mkBits _ _ _ _ he]
  simp [hne]

theorem FpFmt.isInf_mkBits_of_ne (fmt : FpFmt) (s e f : Nat) (he : e < 2 ^ fmt.expb)
    (hne : e ≠ 2 ^ fmt.expb - 1) : fmt.isInf (fmt.mkBits s e f) = false := by
  unfold FpFmt.isInf
  rw [FpFmt.efield_mkBits _ _ _ _ he]
  simp [hne]

theorem FpFmt.roundFinite_lt (fmt : FpFmt) (s m : Nat) (e : Int) :
    fmt.roundFinite s m e < 2 ^ (fmt.mant + fmt.expb + 1) := by
  simp only [FpFmt.roundFinite, FpFmt.encodePos, FpFmt.infBits]
  split_ifs <;> apply FpFmt.mkBits_lt

theorem fpConvert_lt (src dst : FpFmt) (w : Nat) :
    fpConvert src dst w < 2 ^ (dst.mant + dst.expb + 1) := by
  simp only [fpConvert, FpFmt.infBits]
  split_ifs <;> first | apply FpFmt.mkBits_lt | apply FpFmt.roundFinite_lt

theorem f64_to_f32_lt (w : Nat) : f64_to_f32 w < 2 ^ 32 := fpConvert_lt f64fmt f32fmt w

theorem f64_to_f16_lt (w : Nat) : f64_to_f16 w < 2 ^ 16 := fpConvert_lt f64fmt f16fmt w

theorem pyPack4_f32_to_f64 (w : Nat) (hw : w < 2 ^ 32) (hn : f32fmt.isNaN w = false) :
    pyPack4 (f32_to_f64 w) = .ok w := by
  have hs : f32fmt.sign w < 2 := FpFmt.sign_lt _ _
  have hE : f32fmt.efield w < 2 ^ 8 := by
    have h := FpFmt.efield_lt f32fmt w
    rwa [f32expb] at h
  have hF : f32fmt.frac w < 2 ^ 23 := by
    have h := FpFmt.frac_lt f32fmt w
    rwa [f32mant] at h
  have hdecomp : f32fmt.mkBits (f32fmt.sign w) (f32fmt.efield w) (f32fmt.frac w) = w :=
    FpFmt.decomp f32fmt w hw
  rcases Nat.lt_or_ge (f32fmt.efield w) 255 with hlt | hge
  · have hnInf : f32fmt.isInf w = false := by
      unfold FpFmt.isInf
      rw [f32expb]
      simp only [Bool.and_eq_false_iff]
      left
      simp only [beq_eq_false_iff_ne, ne_eq]
      omega
    rcases Nat.eq_zero_or_pos (f32fmt.efield w) with hE0 | hEpos
    · rcases Nat.eq_zero_or_pos (f32fmt.frac w) with hF0 | hFpos
      · -- signed zero
        have hsig : f32fmt.significand w = 0 := by
          unfold FpFmt.significand
          rw [if_pos hE0]
          exact hF0
        have h1 : f32_to_f64 w = f64fmt.mkBits (f32fmt.sign w) 0 0 := by
          simp only [f32_to_f64, fpConvert, hn, hnInf, Bool.false_eq_true, if_false, hsig]
          unfold FpFmt.roundFinite
          rw [if_pos rfl]
        rw [h1]
        have h64s : f64fmt.sign (f64fmt.mkBits (f32fmt.sign w) 0 0) = f32fmt.sign w :=
          FpFmt.sign_mkBits _ _ _ _ hs
        have h64E : f64fmt.efield (f64fmt.mkBits (f32fmt.sign w) 0 0) = 0 :=
          FpFmt.efield_mkBits _ _ _ _ (by norm_num)
        have h64F : f64fmt.frac (f64fmt.mkBits (f32fmt.sign w) 0 0) = 0 :=
          FpFmt.frac_mkBits _ _ _ _ (by norm_num)
        have h64nan : f64fmt.isNaN (f64fmt.mkBits (f32fmt.sign w) 0 0) = false :=
          FpFmt.isNaN_mkBits_of_ne _ _ _ _ (by norm_num) (by norm_num [f64expb])
        have h64inf : f64fmt.isInf (f64fmt.mkBits (f32fmt.sign w) 0 0) = false :=
          FpFmt.isInf_mkBits_of_ne _ _ _ _ (by norm_num) (by norm_num [f64expb])
        have hsig64 : f64fmt.significand (f64fmt.mkBits (f32fmt.sign w) 0 0) = 0 := by
          unfold FpFmt.significand
          rw [h64E, if_pos rfl]
          exact h64F
        have h2 : f64_to_f32 (f64fmt.mkBits (f32fmt.sign w) 0 0)
            = f32fmt.mkBits (f32fmt.sign w) 0 0 := by
          simp only [f64_to_f32, fpConvert, h64nan, h64inf, Bool.false_eq_true, if_false,
            hsig64, h64s]
          unfold FpFmt.roundFinite
          rw [if_pos rfl]
        have hrInf : f32fmt.isInf (f32fmt.mkBits (f32fmt.sign w) 0 0) = false :=
          FpFmt.isInf_mkBits_of_ne _ _ _ _ (by norm_num) (by norm_num [f32expb])
        simp only [pyPack4]
        rw [h2, hrInf]
        simp only [Bool.false_and, Bool.false_eq_true, if_false]
        have hfinal := hdecomp
        rw [hE0, hF0] at hfinal
        rw [hfinal]
      · -- subnormal
        obtain ⟨hl, hr⟩ := log2p_spec _ hFpos
        have htle : log2p (f32fmt.frac w) ≤ 22 := by
          by_contra h
          have : (2 : Nat) ^ 23 ≤ 2 ^ log2p (f32fmt.frac w) :=
            Nat.pow_le_pow_right (by norm_num) (by omega)
          omega
        have hlow : 2 ^ 52 ≤ f32fmt.frac w * 2 ^ (52 - log2p (f32fmt.frac w)) := by
          calc (2 : Nat) ^ 52
              = 2 ^ log2p (f32fmt.frac w) * 2 ^ (52 - log2p (f32fmt.frac w)) := by
                rw [← pow_add]; congr 1; omega
            _ ≤ f32fmt.frac w * 2 ^ (52 - log2p (f32fmt.frac w)) := Nat.mul_le_mul_right _ hl
        have hhigh : f32fmt.frac w * 2 ^ (52 - log2p (f32fmt.frac w)) < 2 ^ 53 := by
          calc f32fmt.frac w * 2 ^ (52 - log2p (f32fmt.frac w))
              < 2 ^ (log2p (f32fmt.frac w) + 1) * 2 ^ (52 - log2p (f32fmt.frac w)) :=
                (Nat.mul_lt_mul_right (Nat.pos_pow_of_pos _ (by norm_num))).mpr hr
            _ = 2 ^ 53 := by rw [← pow_add]; congr 1; omega
        have hsig : f32fmt.significand w = f32fmt.frac w := by
          unfold FpFmt.significand
          rw [if_pos hE0]
        have hexp : f32fmt.exponent w = -149 := by
          unfold FpFmt.exponent
          rw [if_pos hE0, f32qmin]
        have h1 : f32_to_f64 w = f64fmt.mkBits (f32fmt.sign w) (log2p (f32fmt.frac w) + 874)
            (f32fmt.frac w * 2 ^ (52 - log2p (f32fmt.frac w)) - 2 ^ 52) := by
          simp only [f32_to_f64, fpConvert, hn, hnInf, Bool.false_eq_true, if_false,
            hsig, hexp]
          exact roundFinite64_widen_subnormal _ _ hFpos hF
        rw [h1]
        have hfr52 : f32fmt.frac w * 2 ^ (52 - log2p (f32fmt.frac w)) - 2 ^ 52 < 2 ^ 52 := by
          omega
        have hE874 : log2p (f32fmt.frac w) + 874 < 2 ^ 11 := by norm_num; omega
        have h64s : f64fmt.sign (f64fmt.mkBits (f32fmt.sign w) (log2p (f32fmt.frac w) + 874)
            (f32fmt.frac w * 2 ^ (52 - log2p (f32fmt.frac w)) - 2 ^ 52)) = f32fmt.sign w :=
          FpFmt.sign_mkBits _ _ _ _ hs
        have h64E : f64fmt.efield (f64fmt.mkBits (f32fmt.sign w) (log2p (f32fmt.frac w) + 874)
            (f32fmt.frac w * 2 ^ (52 - log2p (f32fmt.frac w)) - 2 ^ 52))
            = log2p (f32fmt.frac w) + 874 :=
          FpFmt.efield_mkBits _ _ _ _ hE874
        have h64F : f64fmt.frac (f64fmt.mkBits (f32fmt.sign w) (log2p (f32fmt.frac w) + 874)
            (f32fmt.frac w * 2 ^ (52 - log2p (f32fmt.frac w)) - 2 ^ 52))
            = f32fmt.frac w * 2 ^ (52 - log2p (f32fmt.frac w)) - 2 ^ 52 :=
          FpFmt.frac_mkBits _ _ _ _ (by rw [f64mant]; exact hfr52)
        have h64nan : f64fmt.isNaN (f64fmt.mkBits (f32fmt.sign w) (log2p (f32fmt.frac w) + 874)
            (f32fmt.frac w * 2 ^ (52 - log2p (f32fmt.frac w)) - 2 ^ 52)) = false :=
          FpFmt.isNaN_mkBits_of_ne _ _ _ _ hE874 (by norm_num [f64expb]; omega)
        have h64inf : f64fmt.isInf (f64fmt.mkBits (f32fmt.sign w) (log2p (f32fmt.frac w) + 874)
            (f32fmt.frac w * 2 ^ (52 - log2p (f32fmt.frac w)) - 2 ^ 52)) = false :=
          FpFmt.isInf_mkBits_of_ne _ _ _ _ hE874 (by norm_num [f64expb]; omega)
        have hsig64 : f64fmt.significand (f64fmt.mkBits (f32fmt.sign w)
            (log2p (f32fmt.frac w) + 874)
            (f32fmt.frac w * 2 ^ (52 - log2p (f32fmt.frac w)) - 2 ^ 52))
            = f32fmt.frac w * 2 ^ (52 - log2p (f32fmt.frac w)) := by
          unfold FpFmt.significand
          rw [h64E, if_neg (by omega), h64F, f64mant]
          omega
        have hexp64 : f64fmt.exponent (f64fmt.mkBits (f32fmt.sign w)
            (log2p (f32fmt.frac w) + 874)
            (f32fmt.frac w * 2 ^ (52 - log2p (f32fmt.frac w)) - 2 ^ 52))
            = (log2p (f32fmt.frac w) : Int) + 874 - 1023 - 52 := by
          unfold FpFmt.exponent
          rw [h64E, if_neg (by omega), f64biasI, f64mantI]
          push_cast
          ring
        have h2 : f64_to_f32 (f64fmt.mkBits (f32fmt.sign w) (log2p (f32fmt.frac w) + 874)
            (f32fmt.frac w * 2 ^ (52 - log2p (f32fmt.frac w)) - 2 ^ 52))
            = f32fmt.mkBits (f32fmt.sign w) 0 (f32fmt.frac w) := by
          simp only [f64_to_f32, fpConvert, h64nan, h64inf, Bool.false_eq_true, if_false,
            hsig64, hexp64, h64s]
          exact roundFinite32_narrow_subnormal _ _ _ hFpos hF rfl
        have hrInf : f32fmt.isInf (f32fmt.mkBits (f32fmt.sign w) 0 (f32fmt.frac w)) = false :=
          FpFmt.isInf_mkBits_of_ne _ _ _ _ (by norm_num) (by norm_num [f32expb])
        simp only [pyPack4]
        rw [h2, hrInf]
        simp only [Bool.false_and, Bool.false_eq_true, if_false]
        have hfinal := hdecomp
        rw [hE0] at hfinal
        rw [hfinal]
    · -- normal
      have hsig : f32fmt.significand w = 2 ^ 23 + f32fmt.frac w := by
        unfold FpFmt.significand
        rw [if_neg (by omega), f32mant]
      have hexp : f32fmt.exponent w = (f32fmt.efield w : Int) - 127 - 23 := by
        unfold FpFmt.exponent
        rw [if_neg (by omega), f32biasI, f32mantI]
      have h1 : f32_to_f64 w
          = f64fmt.mkBits (f32fmt.sign w) (f32fmt.efield w + 896) (f32fmt.frac w * 2 ^ 29) := by
        simp only [f32_to_f64, fpConvert, hn, hnInf, Bool.false_eq_true, if_false, hsig, hexp]
        exact roundFinite64_widen_normal _ _ _ hF hEpos (by omega)
      rw [h1]
      have hE2048 : f32fmt.efield w + 896 < 2 ^ 11 := by norm_num; omega
      have hfr52 : f32fmt.frac w * 2 ^ 29 < 2 ^ 52 := by omega
      have h64s : f64fmt.sign (f64fmt.mkBits (f32fmt.sign w) (f32fmt.efield w + 896)
          (f32fmt.frac w * 2 ^ 29)) = f32fmt.sign w := FpFmt.sign_mkBits _ _ _ _ hs
      have h64E : f64fmt.efield (f64fmt.mkBits (f32fmt.sign w) (f32fmt.efield w + 896)
          (f32fmt.frac w * 2 ^ 29)) = f32fmt.efield w + 896 :=
        FpFmt.efield_mkBits _ _ _ _ hE2048
      have h64F : f64fmt.frac (f64fmt.mkBits (f32fmt.sign w) (f32fmt.efield w + 896)
          (f32fmt.frac w * 2 ^ 29)) = f32fmt.frac w * 2 ^ 29 :=
        FpFmt.frac_mkBits _ _ _ _ (by rw [f64mant]; exact hfr52)
      have h64nan : f64fmt.isNaN (f64fmt.mkBits (f32fmt.sign w) (f32fmt.efield w + 896)
          (f32fmt.frac w * 2 ^ 29)) = false :=
        FpFmt.isNaN_mkBits_of_ne _ _ _ _ hE2048 (by norm_num [f64expb]; omega)
      have h64inf : f64fmt.isInf (f64fmt.mkBits (f32fmt.sign w) (f32fmt.efield w + 896)
          (f32fmt.frac w * 2 ^ 29)) = false :=
        FpFmt.isInf_mkBits_of_ne _ _ _ _ hE2048 (by norm_num [f64expb]; omega)
      have hsig64 : f64fmt.significand (f64fmt.mkBits (f32fmt.sign w) (f32fmt.efield w + 896)
          (f32fmt.frac w * 2 ^ 29)) = (2 ^ 23 + f32fmt.frac w) * 2 ^ 29 := by
        unfold FpFmt.significand
        rw [h64E, if_neg (by omega), h64F, f64mant]
        ring
      have hexp64 : f64fmt.exponent (f64fmt.mkBits (f32fmt.sign w) (f32fmt.efield w + 896)
          (f32fmt.frac w * 2 ^ 29)) = (f32fmt.efield w : Int) + 896 - 1023 - 52 := by
        unfold FpFmt.exponent
        rw [h64E, if_neg (by omega), f64biasI, f64mantI]
        push_cast
        ring
      have h2 : f64_to_f32 (f64fmt.mkBits (f32fmt.sign w) (f32fmt.efield w + 896)
          (f32fmt.frac w * 2 ^ 29))
          = f32fmt.mkBits (f32fmt.sign w) (f32fmt.efield w) (f32fmt.frac w) := by
        simp only [f64_to_f32, fpConvert, h64nan, h64inf, Bool.false_eq_true, if_false,
          hsig64, hexp64, h64s]
        rw [roundFinite32_narrow_normal _ _ _ (by omega) (by omega) hEpos (by omega)]
        rw [show 2 ^ 23 + f32fmt.frac w - 2 ^ 23 = f32fmt.frac w from by omega]
      simp only [pyPack4]
      rw [h2, hdecomp, hnInf]
      simp only [Bool.false_and, Bool.false_eq_true, if_false]
  · -- infinity (NaN is excluded by hypothesis)
    have hE255 : f32fmt.efield w = 255 := by omega
    have hF0 : f32fmt.frac w = 0 := by
      unfold FpFmt.isNaN at hn
      rw [hE255, f32expb] at hn
      simpa using hn
    have hwinf : f32fmt.isInf w = true := by
      unfold FpFmt.isInf
      rw [hE255, hF0, f32expb]
      simp
    have h1 : f32_to_f64 w = f64fmt.infBits (f32fmt.sign w) := by
      simp [f32_to_f64, fpConvert, hn, hwinf]
    rw [h1]
    have h64nan : f64fmt.isNaN (f64fmt.infBits (f32fmt.sign w)) = false := by
      unfold FpFmt.infBits FpFmt.isNaN
      rw [FpFmt.frac_mkBits _ _ _ _ (Nat.pos_pow_of_pos _ (by norm_num))]
      simp
    have h64inf : f64fmt.isInf (f64fmt.infBits (f32fmt.sign w)) = true := by
      unfold FpFmt.infBits FpFmt.isInf
      rw [FpFmt.efield_mkBits _ _ _ _ (by norm_num [f64expb]),
        FpFmt.frac_mkBits _ _ _ _ (Nat.pos_pow_of_pos _ (by norm_num))]
      simp
    have h64s : f64fmt.sign (f64fmt.infBits (f32fmt.sign w)) = f32fmt.sign w := by
      unfold FpFmt.infBits
      exact FpFmt.sign_mkBits _ _ _ _ hs
    have h2 : f64_to_f32 (f64fmt.infBits (f32fmt.sign w)) = f32fmt.infBits (f32fmt.sign w) := by
      simp [f64_to_f32, fpConvert, h64nan, h64inf, h64s]
    have hback : f32fmt.infBits (f32fmt.sign w) = w := by
      unfold FpFmt.infBits
      rw [show (2 : Nat) ^ f32fmt.expb - 1 = 255 from by norm_num [f32expb]]
      have hfinal := hdecomp
      rw [hE255, hF0] at hfinal
      exact hfinal
    simp only [pyPack4]
    rw [h2, h64inf]
    simp only [Bool.true_or, Bool.not_true, Bool.and_false, Bool.false_eq_true, if_false]
    rw [hback]

/-! ### Lemmas: packing float and integer lists -/

theorem pyPack4_isOk_eq (x : F64) (h : (pyPack4 x).isOk = true) :
    pyPack4 x = .ok (f64_to_f32 x) := by
  simp only [pyPack4] at h ⊢
  split_ifs at h ⊢ with hc
  · simp [Except.isOk, Except.toBool] at h
  · rfl

theorem pyPack2_isOk_eq (x : F64) (h : (pyPack2 x).isOk = true) :
    pyPack2 x = .ok (f64_to_f16 x) := by
  simp only [pyPack2] at h ⊢
  split_ifs at h ⊢ with hc
  · simp [Except.isOk, Except.toBool] at h
  · rfl

theorem packFloat32List_ok (v : List F64) (h : ∀ x ∈ v, (pyPack4 x).isOk = true) :
    packFloat32List v = .ok (((v.map f64_to_f32).map (toBytesBE 4)).flatten) := by
  unfold packFloat32List
  rw [exceptMapM_ok_of pyPack4 f64_to_f32 v fun x hx => pyPack4_isOk_eq x (h x hx)]
  rfl

theorem packFloat16List_ok (v : List F64) (h : ∀ x ∈ v, (pyPack2 x).isOk = true) :
    packFloat16List v = .ok (((v.map f64_to_f16).map (toBytesBE 2)).flatten) := by
  unfold packFloat16List
  rw [exceptMapM_ok_of pyPack2 f64_to_f16 v fun x hx => pyPack2_isOk_eq x (h x hx)]
  rfl

theorem chunksBE_flatten_f32 (v : List F64) :
    chunksBE 4 v.length (((v.map f64_to_f32).map (toBytesBE 4)).flatten) = v.map f64_to_f32 := by
  have h := chunksBE_flatten_map 4 (v.map f64_to_f32)
  rw [List.length_map] at h
  rw [h, List.map_map]
  apply List.map_congr_left
  intro x _
  have := f64_to_f32_lt x
  simp only [Function.comp_apply]
  rw [Nat.mod_eq_of_lt (by norm_num; omega)]

theorem chunksBE_flatten_f16 (v : List F64) :
    chunksBE 2 v.length (((v.map f64_to_f16).map (toBytesBE 2)).flatten) = v.map f64_to_f16 := by
  have h := chunksBE_flatten_map 2 (v.map f64_to_f16)
  rw [List.length_map] at h
  rw [h, List.map_map]
  apply List.map_congr_left
  intro x _
  have := f64_to_f16_lt x
  simp only [Function.comp_apply]
  rw [Nat.mod_eq_of_lt (by norm_num; omega)]

theorem packInt32_ofNat (n : Nat) (h : n < 2 ^ 31) :
    packInt32 ((n : Nat) : Int) = .ok (toBytesBE 4 n) := by
  unfold packInt32
  rw [if_pos (by constructor <;> omega)]
  congr 2
  omega

theorem toSigned32_ofNat (n : Nat) (h : n < 2 ^ 31) : toSigned32 n = ((n : Nat) : Int) := by
  unfold toSigned32
  rw [if_pos h]

/-! ### Lemmas: dense codec -/

theorem vector_from_float_list_ok (v : List F64) (h : ∀ x ∈ v, (pyPack4 x).isOk = true) :
    Vector.from_float_list v = .ok ⟨((v.map f64_to_f32).map (toBytesBE 4)).flatten⟩ := by
  unfold Vector.from_float_list
  rw [packFloat32List_ok v h]
  rfl

theorem halfvector_from_float_list_ok (v : List F64) (h : ∀ x ∈ v, (pyPack2 x).isOk = true) :
    HalfVector.from_float_list v = .ok ⟨((v.map f64_to_f16).map (toBytesBE 2)).flatten⟩ := by
  unfold HalfVector.from_float_list
  rw [packFloat16List_ok v h]
  rfl

theorem flatten_f32_length (v : List F64) :
    (((v.map f64_to_f32).map (toBytesBE 4)).flatten).length = 4 * v.length := by
  rw [flatten_map_toBytesBE_length, List.length_map]

theorem flatten_f16_length (v : List F64) :
    (((v.map f64_to_f16).map (toBytesBE 2)).flatten).length = 2 * v.length := by
  rw [flatten_map_toBytesBE_length, List.length_map]

theorem vector_to_float_list_mk (bs : Bytes) :
    Vector.to_float_list ⟨bs⟩ = (structUnpackBE 4 (bs.length / 4) bs).map (List.map f32_to_f64) :=
  rfl

theorem halfvector_to_float_list_mk (bs : Bytes) :
    HalfVector.to_float_list ⟨bs⟩
      = (structUnpackBE 2 (bs.length / 2) bs).map (List.map f16_to_f64) :=
  rfl

theorem vector_roundtrip (v : List F64) (h : ∀ x ∈ v, (pyPack4 x).isOk = true) :
    (Vector.from_float_list v).bind Vector.to_float_list = .ok (v.map roundTrip32) := by
  rw [vector_from_float_list_ok v h]
  show Vector.to_float_list _ = _
  rw [vector_to_float_list_mk, flatten_f32_length, Nat.mul_div_cancel_left _ (by norm_num)]
  unfold structUnpackBE
  rw [flatten_f32_length, if_pos rfl, chunksBE_flatten_f32]
  simp only [Except.map, List.map_map]
  rfl

theorem halfvector_roundtrip (v : List F64) (h : ∀ x ∈ v, (pyPack2 x).isOk = true) :
    (HalfVector.from_float_list v).bind HalfVector.to_float_list = .ok (v.map roundTrip16) := by
  rw [halfvector_from_float_list_ok v h]
  show HalfVector.to_float_list _ = _
  rw [halfvector_to_float_list_mk, flatten_f16_length, Nat.mul_div_cancel_left _ (by norm_num)]
  unfold structUnpackBE
  rw [flatten_f16_length, if_pos rfl, chunksBE_flatten_f16]
  simp only [Except.map, List.map_map]
  rfl

/-! ### Lemmas: Python list assignment -/

theorem pySetItem_ok (items : List F64) (i : Int) (x : F64)
    (h : -(items.length : Int) ≤ i ∧ i < items.length) :
    pySetItem items i x = .ok (items.set (pyNormIdx items.length i) x) := by
  unfold pySetItem pyNormIdx
  rcases Int.lt_or_le i 0 with hneg | hpos
  · rw [if_neg (by omega), if_pos (by omega), if_pos hneg]
  · rw [if_pos (by omega), if_neg (by omega)]

theorem pySetItem_err (items : List F64) (i : Int) (x : F64)
    (h : ¬(-(items.length : Int) ≤ i ∧ i < items.length)) :
    pySetItem items i x = .error .indexError := by
  unfold pySetItem
  rw [if_neg (by omega), if_neg (by omega)]

theorem assignLoop_ok (pairs : List (Int × F64)) (items : List F64)
    (h : ∀ p ∈ pairs, -(items.length : Int) ≤ p.1 ∧ p.1 < items.length) :
    assignLoop items pairs
      = .ok (setAllNat items (pairs.map fun p => (pyNormIdx items.length p.1, p.2))) := by
  induction pairs generalizing items with
  | nil => rfl
  | cons p rest ih =>
      obtain ⟨i, x⟩ := p
      show (pySetItem items i x).bind _ = _
      rw [pySetItem_ok items i x (h (i, x) (List.mem_cons_self _ _))]
      show assignLoop (items.set (pyNormIdx items.length i) x) rest = _
      rw [ih _ fun q hq => by
        have := h q (by simp [hq])
        rwa [List.length_set]]
      rw [List.length_set]
      rfl

theorem assignLoop_err (pairs : List (Int × F64)) (items : List F64)
    (h : ∃ p ∈ pairs, ¬(-(items.length : Int) ≤ p.1 ∧ p.1 < items.length)) :
    assignLoop items pairs = .error .indexError := by
  induction pairs generalizing items with
  | nil => simp at h
  | cons p rest ih =>
      obtain ⟨q, hq, hqbad⟩ := h
      obtain ⟨i, x⟩ := p
      by_cases hhead : -(items.length : Int) ≤ i ∧ i < items.length
      · show (pySetItem items i x).bind _ = _
        rw [pySetItem_ok items i x hhead]
        show assignLoop (items.set (pyNormIdx items.length i) x) rest = _
        rcases List.mem_cons.mp hq with rfl | hmem
        · exact absurd hhead hqbad
        · exact ih _ ⟨q, hmem, by rwa [List.length_set]⟩
      · show (pySetItem items i x).bind _ = _
        rw [pySetItem_err items i x hhead]
        rfl

theorem setAllNat_cons_shift (a : F64) (items : List F64) (ps : List (Nat × F64)) :
    setAllNat (a :: items) (ps.map fun p => (p.1 + 1, p.2)) = a :: setAllNat items ps := by
  induction ps generalizing items a with
  | nil => rfl
  | cons p rest ih =>
      obtain ⟨i, x⟩ := p
      show setAllNat ((a :: items).set (i + 1) x) _ = _
      simp only [List.set_cons_succ]
      exact ih a (items.set i x)

/-! ### Lemmas: the non-zero scan of `SparseVector.from_float_list` -/

theorem nonzeroEnum_shift (v : List F64) : ∀ k : Nat,
    nonzeroEnum (k + 1) v = (nonzeroEnum k v).map fun p => (p.1 + 1, p.2) := by
  induction v with
  | nil => intro k; rfl
  | cons x rest ih =>
      intro k
      by_cases hx : pyNonzero x = true
      · simp only [nonzeroEnum, if_pos hx, List.map_cons, ih (k + 1)]
      · simp only [nonzeroEnum, if_neg hx, ih (k + 1)]

theorem nonzeroEnum_mem (v : List F64) : ∀ (k : Nat), ∀ p ∈ nonzeroEnum k v,
    k ≤ p.1 ∧ p.1 < k + v.length ∧ v.getD (p.1 - k) 0 = p.2 ∧ pyNonzero p.2 = true := by
  induction v with
  | nil => intro k p hp; simp [nonzeroEnum] at hp
  | cons x rest ih =>
      intro k p hp
      by_cases hx : pyNonzero x = true
      · rw [nonzeroEnum, if_pos hx] at hp
        rcases List.mem_cons.mp hp with rfl | hmem
        · refine ⟨le_rfl, by simp, ?_, hx⟩
          simp
        · obtain ⟨h1, h2, h3, h4⟩ := ih (k + 1) p hmem
          refine ⟨by omega, by simp only [List.length_cons]; omega, ?_, h4⟩
          rw [show p.1 - k = (p.1 - (k + 1)) + 1 from by omega, List.getD_cons_succ]
          exact h3
      · rw [nonzeroEnum, if_neg hx] at hp
        obtain ⟨h1, h2, h3, h4⟩ := ih (k + 1) p hp
        refine ⟨by omega, by simp only [List.length_cons]; omega, ?_, h4⟩
        rw [show p.1 - k = (p.1 - (k + 1)) + 1 from by omega, List.getD_cons_succ]
        exact h3

theorem nonzeroEnum_snd (v : List F64) :
    ((nonzeroEnum 0 v).map Prod.fst).map (fun i => v.getD i 0) = (nonzeroEnum 0 v).map Prod.snd := by
  rw [List.map_map]
  apply List.map_congr_left
  intro p hp
  obtain ⟨_, _, h3, _⟩ := nonzeroEnum_mem v 0 p hp
  simpa using h3

theorem setAllNat_nonzeroEnum (g : F64 → F64) (z : F64) (v : List F64) :
    setAllNat (List.replicate v.length z) ((nonzeroEnum 0 v).map fun p => (p.1, g p.2))
      = v.map fun x => if pyNonzero x then g x else z := by
  induction v with
  | nil => rfl
  | cons x rest ih =>
      simp only [List.length_cons, List.replicate_succ, List.map_cons]
      by_cases hx : pyNonzero x = true
      · rw [show nonzeroEnum 0 (x :: rest) = (0, x) :: nonzeroEnum 1 rest from by
          rw [nonzeroEnum, if_pos hx]]
        simp only [List.map_cons]
        show setAllNat ((z :: List.replicate rest.length z).set 0 (g x)) _ = _
        simp only [List.set_cons_zero]
        rw [show (1 : Nat) = 0 + 1 from rfl, nonzeroEnum_shift rest 0]
        rw [show ((nonzeroEnum 0 rest).map fun p => (p.1 + 1, p.2)).map
              (fun p => (p.1, g p.2))
            = ((nonzeroEnum 0 rest).map fun p => (p.1, g p.2)).map
              (fun p => (p.1 + 1, p.2)) from by
          rw [List.map_map, List.map_map]
          exact List.map_congr_left fun p _ => rfl]
        rw [setAllNat_cons_shift, ih, if_pos hx]
      · rw [show nonzeroEnum 0 (x :: rest) = nonzeroEnum 1 rest from by
          rw [nonzeroEnum, if_neg hx]]
        rw [show (1 : Nat) = 0 + 1 from rfl, nonzeroEnum_shift rest 0]
        rw [show ((nonzeroEnum 0 rest).map fun p => (p.1 + 1, p.2)).map
              (fun p => (p.1, g p.2))
            = ((nonzeroEnum 0 rest).map fun p => (p.1, g p.2)).map
              (fun p => (p.1 + 1, p.2)) from by
          rw [List.map_map, List.map_map]
          exact List.map_congr_left fun p _ => rfl]
        rw [setAllNat_cons_shift, ih, if_neg hx]

/-! ### Lemmas: sparse codec round trip -/

theorem pyNormIdx_ofNat (len n : Nat) : pyNormIdx len ((n : Nat) : Int) = n := by
  unfold pyNormIdx
  rw [if_neg (by omega)]
  omega

theorem nonzeroEnum_fst_lt (v : List F64) (i : Nat)
    (hi : i ∈ (nonzeroEnum 0 v).map Prod.fst) : i < v.length := by
  obtain ⟨p, hp, rfl⟩ := List.mem_map.mp hi
  have := nonzeroEnum_mem v 0 p hp
  omega

theorem nonzeroEnum_snd_mem (v : List F64) (x : F64)
    (hx : x ∈ (nonzeroEnum 0 v).map Prod.snd) : x ∈ v := by
  obtain ⟨p, hp, rfl⟩ := List.mem_map.mp hx
  obtain ⟨_, h2, h3, _⟩ := nonzeroEnum_mem v 0 p hp
  have hlt : p.1 - 0 < v.length := by omega
  rw [List.getD_eq_getElem v 0 hlt] at h3
  rw [← h3]
  exact List.getElem_mem hlt

theorem okBind {α β : Type} (x : α) (f : α → Except Err β) :
    ((Except.ok x : Except Err α) >>= f) = f x := rfl

theorem okMapE {α β : Type} (x : α) (f : α → β) :
    Except.map f (Except.ok x : Except Err α) = .ok (f x) := rfl

theorem okBindE {α β : Type} (x : α) (f : α → Except Err β) :
    (Except.ok x : Except Err α).bind f = f x := rfl

theorem sparseInitSome (a : Int) (b c : Bytes) :
    SparseVector.init (some a) (some b) (some c)
      = if b.length = c.length then .ok ⟨a, b, c⟩ else .error .formatValueError := rfl

theorem sparse_from_float_list_ok (v : List F64) (hlen : v.length ≤ 2 ^ 31)
    (h : ∀ x ∈ v, (pyPack4 x).isOk = true) :
    SparseVector.from_float_list v = .ok
      ⟨(v.length : Int),
       (((nonzeroEnum 0 v).map Prod.fst).map (toBytesBE 4)).flatten,
       ((((nonzeroEnum 0 v).map Prod.snd).map f64_to_f32).map (toBytesBE 4)).flatten⟩ := by
  have hib : packInt32List (((nonzeroEnum 0 v).map Prod.fst).map (Nat.cast : Nat → Int))
      = .ok ((((nonzeroEnum 0 v).map Prod.fst).map (toBytesBE 4)).flatten) := by
    unfold packInt32List
    rw [exceptMapM_map_ok packInt32 (Nat.cast : Nat → Int) (toBytesBE 4) _
      fun i hi => packInt32_ofNat i (by have := nonzeroEnum_fst_lt v i hi; omega)]
    rfl
  have hvals : ((nonzeroEnum 0 v).map Prod.fst).map (fun i => v.getD i 0)
      = (nonzeroEnum 0 v).map Prod.snd := nonzeroEnum_snd v
  have hvb : packFloat32List (((nonzeroEnum 0 v).map Prod.fst).map fun i => v.getD i 0)
      = .ok (((((nonzeroEnum 0 v).map Prod.snd).map f64_to_f32).map (toBytesBE 4)).flatten) := by
    rw [hvals]
    exact packFloat32List_ok _ fun x hx => h x (nonzeroEnum_snd_mem v x hx)
  simp only [SparseVector.from_float_list]
  rw [hib]
  simp only [okBind]
  rw [hvb]
  simp only [okBind]
  rw [sparseInitSome]
  rw [if_pos (by
    rw [flatten_map_toBytesBE_length, flatten_map_toBytesBE_length,
      List.length_map, List.length_map, List.length_map])]

theorem sparse_roundtrip (v : List F64) (hlen : v.length ≤ 2 ^ 31)
    (h : ∀ x ∈ v, (pyPack4 x).isOk = true) :
    (SparseVector.from_float_list v).bind SparseVector.to_float_list
      = .ok (v.map sparseRound) := by
  rw [sparse_from_float_list_ok v hlen h]
  simp only [okBindE]
  simp only [SparseVector.to_float_list, SparseVector.nnz]
  have hcount : ((((nonzeroEnum 0 v).map Prod.fst).map (toBytesBE 4)).flatten).length / 4
      = (nonzeroEnum 0 v).length := by
    rw [flatten_map_toBytesBE_length, List.length_map,
      Nat.mul_div_cancel_left _ (by norm_num)]
  simp only [hcount]
  have hidx : structUnpackBE 4 (nonzeroEnum 0 v).length
      ((((nonzeroEnum 0 v).map Prod.fst).map (toBytesBE 4)).flatten)
      = .ok ((nonzeroEnum 0 v).map Prod.fst) := by
    unfold structUnpackBE
    rw [if_pos (by rw [flatten_map_toBytesBE_length, List.length_map])]
    refine congrArg Except.ok ?_
    rw [show (nonzeroEnum 0 v).length = ((nonzeroEnum 0 v).map Prod.fst).length from
      (List.length_map _ _).symm]
    rw [chunksBE_flatten_map, List.map_map]
    refine List.map_congr_left fun p hp => ?_
    obtain ⟨_, h2, _, _⟩ := nonzeroEnum_mem v 0 p hp
    simp only [Function.comp_apply]
    rw [Nat.mod_eq_of_lt (by norm_num; omega)]
  have hval : structUnpackBE 4 (nonzeroEnum 0 v).length
      (((((nonzeroEnum 0 v).map Prod.snd).map f64_to_f32).map (toBytesBE 4)).flatten)
      = .ok (((nonzeroEnum 0 v).map Prod.snd).map f64_to_f32) := by
    unfold structUnpackBE
    rw [if_pos (by rw [flatten_map_toBytesBE_length, List.length_map, List.length_map])]
    refine congrArg Except.ok ?_
    rw [show (nonzeroEnum 0 v).length
        = (((nonzeroEnum 0 v).map Prod.snd).map f64_to_f32).length from by
      rw [List.length_map, List.length_map]]
    rw [chunksBE_flatten_map, List.map_map]
    refine List.map_congr_left fun y _ => ?_
    simp only [Function.comp_apply]
    rw [Nat.mod_eq_of_lt (by have := f64_to_f32_lt y; norm_num; omega)]
  rw [hidx]
  simp only [Except.map, Except.bind]
  rw [hval]
  simp only [Except.map, Except.bind]
  rw [show ((nonzeroEnum 0 v).map Prod.fst).map toSigned32
      = ((nonzeroEnum 0 v).map Prod.fst).map (Nat.cast : Nat → Int) from
    List.map_congr_left fun i hi =>
      toSigned32_ofNat i (by have := nonzeroEnum_fst_lt v i hi; omega)]
  have hzip : (((nonzeroEnum 0 v).map Prod.fst).map (Nat.cast : Nat → Int)).zip
      ((((nonzeroEnum 0 v).map Prod.snd).map f64_to_f32).map f32_to_f64)
      = (nonzeroEnum 0 v).map fun p => ((p.1 : Int), roundTrip32 p.2) := by
    rw [List.map_map, List.map_map, List.map_map, List.zip_map']
    rfl
  show assignLoop (List.replicate ((v.length : Int)).toNat 0)
      ((((nonzeroEnum 0 v).map Prod.fst).map (Nat.cast : Nat → Int)).zip
        ((((nonzeroEnum 0 v).map Prod.snd).map f64_to_f32).map f32_to_f64))
      = Except.ok (List.map sparseRound v)
  rw [hzip]
  have hsize : ((v.length : Int)).toNat = v.length := by omega
  rw [hsize]
  have hrange : ∀ p ∈ (nonzeroEnum 0 v).map fun p => ((p.1 : Int), roundTrip32 p.2),
      -(((List.replicate v.length (0 : F64)).length : Nat) : Int) ≤ p.1
        ∧ p.1 < ((List.replicate v.length (0 : F64)).length : Int) := by
    intro p hp
    obtain ⟨q, hq, rfl⟩ := List.mem_map.mp hp
    obtain ⟨_, h2, _, _⟩ := nonzeroEnum_mem v 0 q hq
    rw [List.length_replicate]
    constructor <;> simp <;> omega
  rw [assignLoop_ok _ _ hrange]
  rw [List.length_replicate]
  rw [show ((nonzeroEnum 0 v).map fun p => ((p.1 : Int), roundTrip32 p.2)).map
      (fun p => (pyNormIdx v.length p.1, p.2))
      = (nonzeroEnum 0 v).map fun p => (p.1, roundTrip32 p.2) from by
    rw [List.map_map]
    refine List.map_congr_left fun q _ => ?_
    simp only [Function.comp_apply]
    rw [pyNormIdx_ofNat]]
  rw [setAllNat_nonzeroEnum]
  rfl

/-! ### Lemmas: wire headers and slices -/

theorem vector_fdb_eq (data : Bytes) :
    Vector.from_database_binary data =
      if 4 ≤ data.length then
        (if data.length = 4 + 4 * fromBytesBE (data.take 2) then .ok ⟨data.drop 4⟩
         else .error .formatValueError)
      else .error .structError := by
  unfold Vector.from_database_binary unpackUInt16Pair
  by_cases hlen : 4 ≤ data.length
  · rw [if_pos hlen, if_pos (by rw [List.length_take]; omega)]
    simp only [okBind]
    rw [List.take_take]
    rfl
  · rw [if_neg hlen, if_neg (by rw [List.length_take]; omega)]
    rfl

theorem halfvector_fdb_eq (data : Bytes) :
    HalfVector.from_database_binary data =
      if 4 ≤ data.length then
        (if data.length = 4 + 2 * fromBytesBE (data.take 2) then .ok ⟨data.drop 4⟩
         else .error .formatValueError)
      else .error .structError := by
  unfold HalfVector.from_database_binary unpackUInt16Pair
  by_cases hlen : 4 ≤ data.length
  · rw [if_pos hlen, if_pos (by rw [List.length_take]; omega)]
    simp only [okBind]
    rw [List.take_take]
    rfl
  · rw [if_neg hlen, if_neg (by rw [List.length_take]; omega)]
    rfl

theorem sparse_fdb_eq (data : Bytes) (s c r : Int)
    (hu : unpackInt32Triple (data.take 12) = .ok (s, c, r)) :
    SparseVector.from_database_binary data
      = SparseVector.init (some s) (some (pySlice data 12 (some (12 + 4 * c))))
          (some (pySlice data (12 + 4 * c) none)) := by
  unfold SparseVector.from_database_binary
  rw [hu]
  rfl

theorem unpackInt32Triple_len (data : Bytes) (t : Int × Int × Int)
    (h : unpackInt32Triple (data.take 12) = .ok t) : 12 ≤ data.length := by
  unfold unpackInt32Triple at h
  by_cases hc : (data.take 12).length = 12
  · rw [List.length_take] at hc; omega
  · rw [if_neg hc] at h; cases h

theorem take_two_append (xs ys : List α) (h : xs.length = 2) : (xs ++ ys).take 2 = xs := by
  rw [← h]; exact take_append_len xs ys

theorem unpackUInt16Pair_header (a b : Nat) (rest : Bytes) :
    unpackUInt16Pair ((toBytesBE 2 a ++ toBytesBE 2 b ++ rest).take 4)
      = .ok (a % 2 ^ 16, b % 2 ^ 16) := by
  have hlen2a := toBytesBE_length 2 a
  have hlen2b := toBytesBE_length 2 b
  have h4 : (toBytesBE 2 a ++ toBytesBE 2 b).length = 4 := by
    rw [List.length_append]; omega
  rw [List.append_assoc, ← List.append_assoc]
  rw [take_append_of_len _ _ 4 h4]
  unfold unpackUInt16Pair
  rw [if_pos h4, take_append_of_len _ _ 2 hlen2a, drop_append_of_len _ _ 2 hlen2a,
    fromBytesBE_toBytesBE, fromBytesBE_toBytesBE]
  rw [show (256 : Nat) ^ 2 = 2 ^ 16 from by norm_num]

theorem unpackInt32Triple_header (j1 j2 j3 : Nat) (rest : Bytes) :
    unpackInt32Triple ((toBytesBE 4 j1 ++ toBytesBE 4 j2 ++ toBytesBE 4 j3 ++ rest).take 12)
      = .ok (toSigned32 (j1 % 2 ^ 32), toSigned32 (j2 % 2 ^ 32), toSigned32 (j3 % 2 ^ 32)) := by
  have hl1 := toBytesBE_length 4 j1
  have hl2 := toBytesBE_length 4 j2
  have hl3 := toBytesBE_length 4 j3
  have h12 : (toBytesBE 4 j1 ++ toBytesBE 4 j2 ++ toBytesBE 4 j3).length = 12 := by
    simp only [List.length_append]
    omega
  rw [take_append_of_len _ _ 12 h12]
  unfold unpackInt32Triple
  rw [if_pos h12]
  rw [List.append_assoc]
  have ht1 : (toBytesBE 4 j1 ++ (toBytesBE 4 j2 ++ toBytesBE 4 j3)).take 4 = toBytesBE 4 j1 :=
    take_append_of_len _ _ 4 hl1
  have hd1 : (toBytesBE 4 j1 ++ (toBytesBE 4 j2 ++ toBytesBE 4 j3)).drop 4
      = toBytesBE 4 j2 ++ toBytesBE 4 j3 := drop_append_of_len _ _ 4 hl1
  have ht2 : (toBytesBE 4 j2 ++ toBytesBE 4 j3).take 4 = toBytesBE 4 j2 :=
    take_append_of_len _ _ 4 hl2
  have hd8 : (toBytesBE 4 j1 ++ (toBytesBE 4 j2 ++ toBytesBE 4 j3)).drop 8 = toBytesBE 4 j3 := by
    rw [show (8 : Nat) = 4 + 4 from rfl, ← List.drop_drop, hd1]
    exact drop_append_of_len _ _ 4 hl2
  rw [ht1, hd1, ht2, hd8, fromBytesBE_toBytesBE, fromBytesBE_toBytesBE, fromBytesBE_toBytesBE]
  norm_num

theorem toSigned32_emod (i : Int) (h1 : -(2 ^ 31) ≤ i) (h2 : i < 2 ^ 31) :
    toSigned32 ((i % (2 ^ 32 : Int)).toNat) = i := by
  unfold toSigned32
  split_ifs <;> omega

theorem pyClamp_nonneg (len : Nat) (a : Int) (h0 : 0 ≤ a) :
    pyClamp len a = min a.toNat len := by
  unfold pyClamp
  rw [if_neg (by omega)]

theorem pySlice_eq_drop_take (bs : Bytes) (a t : Int) (h0 : 0 ≤ a) (hat : a ≤ t)
    (hlen : t.toNat ≤ bs.length) :
    pySlice bs a (some t) = (bs.drop a.toNat).take (t.toNat - a.toNat) := by
  simp only [pySlice, pyStop]
  rw [pyClamp_nonneg _ _ h0, pyClamp_nonneg _ _ (by omega),
    show min a.toNat bs.length = a.toNat from by omega,
    show min t.toNat bs.length = t.toNat from by omega]

theorem pySlice_none_eq_drop (bs : Bytes) (a : Int) (h0 : 0 ≤ a) (hlen : a.toNat ≤ bs.length) :
    pySlice bs a none = bs.drop a.toNat := by
  simp only [pySlice, pyStop]
  rw [pyClamp_nonneg _ _ h0, show min a.toNat bs.length = a.toNat from by omega]
  exact List.take_of_length_le (by rw [List.length_drop])

theorem pySlice_some_length (bs : Bytes) (a t : Int) (h0 : 0 ≤ a) (ht : 0 ≤ t) :
    (pySlice bs a (some t)).length = min t.toNat bs.length - min a.toNat bs.length := by
  simp only [pySlice, pyStop]
  rw [pyClamp_nonneg _ _ h0, pyClamp_nonneg _ _ ht, List.length_take, List.length_drop]
  omega

theorem pySlice_none_length (bs : Bytes) (a : Int) (h0 : 0 ≤ a) :
    (pySlice bs a none).length = bs.length - min a.toNat bs.length := by
  simp only [pySlice, pyStop]
  rw [pyClamp_nonneg _ _ h0, List.length_take, List.length_drop]
  omega

/-! ### Lemmas: pack length facts -/

theorem packFloat32List_ok_dvd (v : List F64) (bs : Bytes) (h : packFloat32List v = .ok bs) :
    4 ∣ bs.length := by
  unfold packFloat32List at h
  cases hm : exceptMapM pyPack4 v with
  | error e => rw [hm] at h; simp [Except.map] at h
  | ok ws =>
      rw [hm] at h
      simp only [Except.map, Except.ok.injEq] at h
      subst h
      rw [flatten_map_toBytesBE_length]
      exact Dvd.intro _ rfl

theorem packFloat16List_ok_dvd (v : List F64) (bs : Bytes) (h : packFloat16List v = .ok bs) :
    2 ∣ bs.length := by
  unfold packFloat16List at h
  cases hm : exceptMapM pyPack2 v with
  | error e => rw [hm] at h; simp [Except.map] at h
  | ok ws =>
      rw [hm] at h
      simp only [Except.map, Except.ok.injEq] at h
      subst h
      rw [flatten_map_toBytesBE_length]
      exact Dvd.intro _ rfl

/-! ### Lemmas: base64 decoding -/

theorem b64decode_bytes_lt : ∀ (s : List Char) (bs : Bytes), b64decode s = .ok bs →
    ∀ b ∈ bs, b < 256
  | [], bs, h => by
      simp only [b64decode, Except.ok.injEq] at h
      subst h
      simp
  | [_], _, h => by simp [b64decode] at h
  | [_, _], _, h => by simp [b64decode] at h
  | [_, _, _], _, h => by simp [b64decode] at h
  | a :: b :: c :: d :: rest, bs, h => by
      simp only [b64decode] at h
      split at h
      · rename_i va vb vc vd _
        cases hr : b64decode rest with
        | error e => rw [hr] at h; simp [Except.map] at h
        | ok tail =>
            rw [hr] at h
            simp only [Except.map, Except.ok.injEq] at h
            subst h
            intro x hx
            simp only [List.mem_cons] at hx
            rcases hx with rfl | rfl | rfl | hx
            · exact Nat.mod_lt _ (by norm_num)
            · exact Nat.mod_lt _ (by norm_num)
            · exact Nat.mod_lt _ (by norm_num)
            · exact b64decode_bytes_lt rest tail hr x hx
      · split_ifs at h
        cases h
        intro x hx
        simp only [List.mem_cons, List.not_mem_nil, or_false] at hx
        rcases hx with rfl | rfl <;> exact Nat.mod_lt _ (by norm_num)
      · split_ifs at h
        cases h
        intro x hx
        simp only [List.mem_cons, List.not_mem_nil, or_false] at hx
        rcases hx with rfl
        exact Nat.mod_lt _ (by norm_num)
      · cases h

/-! ### Lemmas: the non-zero position filter as a range filter -/

theorem nonzeroEnum_fst_range_aux (v : List F64) : ∀ k : Nat,
    (nonzeroEnum k v).map Prod.fst
      = (List.range' k v.length).filter fun i => pyNonzero (v.getD (i - k) 0) := by
  induction v with
  | nil => intro k; rfl
  | cons x rest ih =>
      intro k
      rw [List.length_cons, List.range'_succ]
      rw [List.filter_cons]
      have hk : ((x :: rest).getD (k - k) 0) = x := by
        rw [Nat.sub_self]
        rfl
      have htail : (List.range' (k + 1) rest.length).filter
            (fun i => pyNonzero ((x :: rest).getD (i - k) 0))
          = (List.range' (k + 1) rest.length).filter
            (fun i => pyNonzero (rest.getD (i - (k + 1)) 0)) := by
        apply List.filter_congr
        intro i hi
        have hge : k + 1 ≤ i := (List.mem_range'_1.mp hi).1
        rw [show i - k = (i - (k + 1)) + 1 from by omega, List.getD_cons_succ]
      by_cases hx : pyNonzero x = true
      · rw [nonzeroEnum, if_pos hx]
        simp only [List.map_cons]
        rw [hk, if_pos hx, ih (k + 1), htail]
      · rw [nonzeroEnum, if_neg hx]
        rw [hk, if_neg hx, ih (k + 1), htail]

theorem nonzeroEnum_fst_range (v : List F64) :
    (nonzeroEnum 0 v).map Prod.fst
      = (List.range v.length).filter fun i => pyNonzero (v.getD i 0) := by
  rw [List.range_eq_range', nonzeroEnum_fst_range_aux v 0]
  apply List.filter_congr
  intro i _
  rw [Nat.sub_zero]

/-! ### Lemmas: assorted helpers for the claims -/

theorem chunksBE_lt (k : Nat) : ∀ (c : Nat) (bs : Bytes), (∀ b ∈ bs, b < 256) →
    ∀ w ∈ chunksBE k c bs, w < 256 ^ k := by
  intro c
  induction c with
  | zero => intro bs _ w hw; simp [chunksBE] at hw
  | succ c ih =>
      intro bs hb w hw
      simp only [chunksBE, List.mem_cons] at hw
      rcases hw with rfl | hw
      · calc fromBytesBE (bs.take k) < 256 ^ (bs.take k).length :=
              fromBytesBE_lt _ fun b hbm => hb b (List.mem_of_mem_take hbm)
          _ ≤ 256 ^ k := Nat.pow_le_pow_right (by norm_num)
              (by rw [List.length_take]; omega)
      · exact ih (bs.drop k) (fun b hbm => hb b (List.mem_of_mem_drop hbm)) w hw

theorem exists_zip_pair (xs : List α) : ∀ (ys : List β), xs.length = ys.length →
    ∀ a ∈ xs, ∃ b, (a, b) ∈ xs.zip ys := by
  induction xs with
  | nil => intro ys _ a ha; simp at ha
  | cons x xs ih =>
      intro ys hlen a ha
      cases ys with
      | nil => simp at hlen
      | cons y ys =>
          rcases List.mem_cons.mp ha with rfl | hmem
          · exact ⟨y, by simp⟩
          · obtain ⟨b, hb⟩ := ih ys (by simpa using hlen) a hmem
            exact ⟨b, by simp [hb]⟩

theorem sparse_w_storedIndices (v : List F64) (hlen : v.length ≤ 2 ^ 31) :
    SparseVector.storedIndices
        ⟨(v.length : Int),
         (((nonzeroEnum 0 v).map Prod.fst).map (toBytesBE 4)).flatten,
         ((((nonzeroEnum 0 v).map Prod.snd).map f64_to_f32).map (toBytesBE 4)).flatten⟩
      = ((nonzeroEnum 0 v).map Prod.fst).map (Nat.cast : Nat → Int) := by
  simp only [SparseVector.storedIndices, SparseVector.nnz]
  rw [flatten_map_toBytesBE_length, List.length_map,
    Nat.mul_div_cancel_left _ (by norm_num)]
  rw [show (nonzeroEnum 0 v).length = ((nonzeroEnum 0 v).map Prod.fst).length from
    (List.length_map _ _).symm]
  rw [chunksBE_flatten_map, List.map_map]
  refine List.map_congr_left fun p hp => ?_
  have h2 := nonzeroEnum_fst_lt v p hp
  simp only [Function.comp_apply]
  rw [Nat.mod_eq_of_lt (by norm_num; omega)]
  exact toSigned32_ofNat _ (by omega)

theorem sparse_w_storedValueBits (v : List F64) :
    SparseVector.storedValueBits
        ⟨(v.length : Int),
         (((nonzeroEnum 0 v).map Prod.fst).map (toBytesBE 4)).flatten,
         ((((nonzeroEnum 0 v).map Prod.snd).map f64_to_f32).map (toBytesBE 4)).flatten⟩
      = ((nonzeroEnum 0 v).map Prod.snd).map f64_to_f32 := by
  simp only [SparseVector.storedValueBits, SparseVector.nnz]
  rw [flatten_map_toBytesBE_length, List.length_map,
    Nat.mul_div_cancel_left _ (by norm_num)]
  rw [show (nonzeroEnum 0 v).length
      = (((nonzeroEnum 0 v).map Prod.snd).map f64_to_f32).length from by
    rw [List.length_map, List.length_map]]
  rw [chunksBE_flatten_map]
  calc (((nonzeroEnum 0 v).map Prod.snd).map f64_to_f32).map (· % 256 ^ 4)
      = (((nonzeroEnum 0 v).map Prod.snd).map f64_to_f32).map id := by
        refine List.map_congr_left fun y hy => ?_
        obtain ⟨x, _, rfl⟩ := List.mem_map.mp hy
        have := f64_to_f32_lt x
        simp only [id]
        rw [Nat.mod_eq_of_lt (by norm_num; omega)]
    _ = ((nonzeroEnum 0 v).map Prod.snd).map f64_to_f32 := List.map_id _

theorem vector_from_float_list_dvd (v : List F64) (w : Vector)
    (h : Vector.from_float_list v = .ok w) : 4 ∣ w.data.length := by
  unfold Vector.from_float_list at h
  cases hp : packFloat32List v with
  | error e => rw [hp] at h; simp [Except.map] at h
  | ok bs =>
      rw [hp] at h
      simp only [Except.map, Except.ok.injEq] at h
      subst h
      exact packFloat32List_ok_dvd v bs hp

theorem halfvector_from_float_list_dvd (v : List F64) (w : HalfVector)
    (h : HalfVector.from_float_list v = .ok w) : 2 ∣ w.data.length := by
  unfold HalfVector.from_float_list at h
  cases hp : packFloat16List v with
  | error e => rw [hp] at h; simp [Except.map] at h
  | ok bs =>
      rw [hp] at h
      simp only [Except.map, Except.ok.injEq] at h
      subst h
      exact packFloat16List_ok_dvd v bs hp

theorem errBind {α β : Type} (e : Err) (f : α → Except Err β) :
    ((Except.error e : Except Err α) >>= f) = .error e := rfl

theorem sparse_slices (hdr ind vals : Bytes) (hh : hdr.length = 12) :
    pySlice (hdr ++ (ind ++ vals)) 12 (some (12 + (ind.length : Int))) = ind
    ∧ pySlice (hdr ++ (ind ++ vals)) (12 + (ind.length : Int)) none = vals := by
  have hlen : (hdr ++ (ind ++ vals)).length = 12 + (ind.length + vals.length) := by
    rw [List.length_append, List.length_append, hh]
  constructor
  · rw [pySlice_eq_drop_take _ 12 _ (by norm_num) (by omega) (by omega)]
    rw [show ((12 : Int)).toNat = 12 from rfl,
      show ((12 : Int) + (ind.length : Int)).toNat = 12 + ind.length from by omega,
      show 12 + ind.length - 12 = ind.length from by omega]
    rw [drop_append_of_len hdr (ind ++ vals) 12 hh]
    exact take_append_of_len ind vals ind.length rfl
  · rw [pySlice_none_eq_drop _ _ (by omega) (by omega)]
    rw [show ((12 : Int) + (ind.length : Int)).toNat = 12 + ind.length from by omega]
    rw [← List.append_assoc]
    exact drop_append_of_len (hdr ++ ind) vals (12 + ind.length)
      (by rw [List.length_append, hh])

theorem sparse_tdb_eq (v : SparseVector) (hs1 : -(2 ^ 31) ≤ v.size) (hs2 : v.size < 2 ^ 31)
    (hnnz : v.indices.length / 4 < 2 ^ 31) :
    v.to_database_binary = .ok (toBytesBE 4 (v.size % (2 ^ 32 : Int)).toNat
      ++ toBytesBE 4 (v.indices.length / 4) ++ toBytesBE 4 0 ++ v.indices ++ v.values) := by
  unfold SparseVector.to_database_binary SparseVector.nnz packInt32
  rw [if_pos (And.intro hs1 hs2)]
  rw [if_pos (show -(2 ^ 31 : Int) ≤ ((v.indices.length / 4 : Nat) : Int)
      ∧ ((v.indices.length / 4 : Nat) : Int) < 2 ^ 31 from by omega)]
  rw [if_pos (show -(2 ^ 31 : Int) ≤ (0 : Int) ∧ (0 : Int) < 2 ^ 31 from by norm_num)]
  simp only [okBind]
  rw [show ((((v.indices.length / 4 : Nat) : Int)) % (2 ^ 32 : Int)).toNat
      = v.indices.length / 4 from by omega]
  rw [show (((0 : Int)) % (2 ^ 32 : Int)).toNat = 0 from rfl]

/-! ## The claims -/

/-- C1: `from_float_list` followed by `to_float_list` is a round trip only up
to the kind's storage precision, not exactly as claimed for the dense
full-precision and sparse kinds: whenever every element packs without
overflow, the full-precision dense kind returns the binary32 rounding
(`roundTrip32`) of each element, the half kind the binary16 rounding
(`roundTrip16`), and the sparse kind the binary32 rounding at non-zero
positions with `+0.0` elsewhere (`sparseRound`) — the sparse kind also
stores values in binary32, so it is not exact either. -/
theorem claim_C1_roundtrip_precision (v : List F64) :
    ((∀ x ∈ v, (pyPack4 x).isOk = true) →
      (Vector.from_float_list v).bind Vector.to_float_list = .ok (v.map roundTrip32))
    ∧ ((∀ x ∈ v, (pyPack2 x).isOk = true) →
      (HalfVector.from_float_list v).bind HalfVector.to_float_list = .ok (v.map roundTrip16))
    ∧ (v.length ≤ 2 ^ 31 → (∀ x ∈ v, (pyPack4 x).isOk = true) →
      (SparseVector.from_float_list v).bind SparseVector.to_float_list
        = .ok (v.map sparseRound)) :=
  ⟨vector_roundtrip v, halfvector_roundtrip v, sparse_roundtrip v⟩

theorem claim_C1_witness :
    (Vector.from_float_list [0x3FF8000000000000]).bind Vector.to_float_list
        = .ok ([0x3FF8000000000000].map roundTrip32)
    ∧ (HalfVector.from_float_list [0x3FF8000000000000]).bind HalfVector.to_float_list
        = .ok ([0x3FF8000000000000].map roundTrip16)
    ∧ (SparseVector.from_float_list [0x3FF8000000000000]).bind SparseVector.to_float_list
        = .ok ([0x3FF8000000000000].map sparseRound) :=
  ⟨(claim_C1_roundtrip_precision [0x3FF8000000000000]).1 (by decide),
   (claim_C1_roundtrip_precision [0x3FF8000000000000]).2.1 (by decide),
   (claim_C1_roundtrip_precision [0x3FF8000000000000]).2.2 (by decide) (by decide)⟩

/-- C1 counterexample to the claimed exactness: storing `0.1` (bit pattern
`0x3FB999999999999A`) through the full-precision dense kind or the sparse
kind returns the binary32-rounded pattern `0x3FB99999A0000000`, which differs
from the input both bitwise and under Python float equality. -/
theorem claim_C1_counterexample :
    (Vector.from_float_list [0x3FB999999999999A]).bind Vector.to_float_list
        = .ok [0x3FB99999A0000000]
    ∧ (SparseVector.from_float_list [0x3FB999999999999A]).bind SparseVector.to_float_list
        = .ok [0x3FB99999A0000000]
    ∧ pyListEq [0x3FB99999A0000000] [0x3FB999999999999A] = false
    ∧ (0x3FB99999A0000000 : F64) ≠ (0x3FB999999999999A : F64) :=
  ⟨by decide, by decide, by decide, by decide⟩

/-- C3: corrected — the length consistency the decoder enforces is only the
incidental equality of the two slice lengths. For a buffer with a non-empty
payload (`12 < len`) and a non-negative declared count `c`, any payload that
is not exactly `8 * c` bytes is indeed rejected with the `ValueError` raised
by the constructor's equal-length check. But the guarantee claimed — that a
stored entry count differing from the declared one can never be produced
silently — fails for buffers with an empty payload (see the counterexample
theorem). -/
theorem claim_C3_sparse_decode_validation (data : Bytes) (s c r : Int)
    (hu : unpackInt32Triple (data.take 12) = .ok (s, c, r)) (hc : 0 ≤ c)
    (hpay : 12 < data.length) (hne : (data.length : Int) ≠ 12 + 8 * c) :
    SparseVector.from_database_binary data = .error .formatValueError := by
  have hlen : 12 ≤ data.length := unpackInt32Triple_len data _ hu
  rw [sparse_fdb_eq data s c r hu, sparseInitSome]
  rw [if_neg ?hne2]
  case hne2 =>
    rw [pySlice_some_length data 12 (12 + 4 * c) (by norm_num) (by omega),
        pySlice_none_length data (12 + 4 * c) (by omega)]
    omega

theorem claim_C3_witness :
    SparseVector.from_database_binary [0, 0, 0, 5, 0, 0, 0, 1, 0, 0, 0, 0, 9]
      = .error .formatValueError :=
  claim_C3_sparse_decode_validation [0, 0, 0, 5, 0, 0, 0, 1, 0, 0, 0, 0, 9] 5 1 0
    (by decide) (by decide) (by decide) (by decide)

/-- C3 counterexample to the claimed universal validation: a 12-byte buffer
whose header declares size 5 and count 3 but carries no payload at all is
accepted silently, producing a vector whose stored entry count (`nnz`, 0)
differs from the declared count 3. -/
theorem claim_C3_counterexample :
    SparseVector.from_database_binary [0, 0, 0, 5, 0, 0, 0, 3, 0, 0, 0, 0]
        = .ok ⟨5, [], []⟩
    ∧ SparseVector.nnz ⟨5, [], []⟩ = 0 :=
  ⟨by decide, by decide⟩

/-- C4: confirmed — for each dense kind, `from_database_binary` returns the
vector carrying the payload after the 4-byte header exactly when the buffer
length equals `4 + bytes_per_item * dimensionality` for the header-declared
dimensionality, and on any mismatch (including buffers shorter than the
header) it fails with a `FormatError`-class error, never truncating or
padding. -/
theorem claim_C4_dense_decode_validation (data : Bytes) :
    ((Vector.from_database_binary data = .ok ⟨data.drop 4⟩)
        ↔ data.length = 4 + 4 * fromBytesBE (data.take 2))
    ∧ (data.length ≠ 4 + 4 * fromBytesBE (data.take 2) →
        ∃ e, Vector.from_database_binary data = .error e ∧ e.isFormatClass = true)
    ∧ ((HalfVector.from_database_binary data = .ok ⟨data.drop 4⟩)
        ↔ data.length = 4 + 2 * fromBytesBE (data.take 2))
    ∧ (data.length ≠ 4 + 2 * fromBytesBE (data.take 2) →
        ∃ e, HalfVector.from_database_binary data = .error e ∧ e.isFormatClass = true) := by
  refine ⟨?_, ?_, ?_, ?_⟩
  · rw [vector_fdb_eq data]
    split_ifs with h1 h2
    · simp [h2]
    · simp [h2]
    · have hne : data.length ≠ 4 + 4 * fromBytesBE (data.take 2) := by omega
      simp [hne]
  · intro hne
    rw [vector_fdb_eq data]
    by_cases h1 : 4 ≤ data.length
    · rw [if_pos h1, if_neg hne]
      exact ⟨.formatValueError, rfl, rfl⟩
    · rw [if_neg h1]
      exact ⟨.structError, rfl, rfl⟩
  · rw [halfvector_fdb_eq data]
    split_ifs with h1 h2
    · simp [h2]
    · simp [h2]
    · have hne : data.length ≠ 4 + 2 * fromBytesBE (data.take 2) := by omega
      simp [hne]
  · intro hne
    rw [halfvector_fdb_eq data]
    by_cases h1 : 4 ≤ data.length
    · rw [if_pos h1, if_neg hne]
      exact ⟨.formatValueError, rfl, rfl⟩
    · rw [if_neg h1]
      exact ⟨.structError, rfl, rfl⟩

theorem claim_C4_witness :
    ([0, 3, 0, 0, 1, 2, 3, 4, 5, 6, 7, 8] : Bytes).length
        ≠ 4 + 4 * fromBytesBE (([0, 3, 0, 0, 1, 2, 3, 4, 5, 6, 7, 8] : Bytes).take 2)
    ∧ ∃ e, Vector.from_database_binary [0, 3, 0, 0, 1, 2, 3, 4, 5, 6, 7, 8] = .error e
        ∧ e.isFormatClass = true :=
  ⟨by decide,
   (claim_C4_dense_decode_validation [0, 3, 0, 0, 1, 2, 3, 4, 5, 6, 7, 8]).2.1 (by decide)⟩

/-- C9: confirmed — constructing a sparse vector from explicit size, index
buffer and value buffer fails with the `FormatError`-class `ValueError`
whenever the two buffers imply different entry counts (the source checks the
even stronger condition that the byte lengths match), and constructing with
all three arguments absent yields the canonical empty vector with size 0,
zero stored entries and empty buffers. -/
theorem claim_C9_sparse_init :
    (∀ (s : Int) (ib vb : Bytes), ib.length / 4 ≠ vb.length / 4 →
        SparseVector.init (some s) (some ib) (some vb) = .error .formatValueError)
    ∧ SparseVector.init none none none = .ok ⟨0, [], []⟩
    ∧ (⟨0, [], []⟩ : SparseVector).size = 0
    ∧ SparseVector.nnz ⟨0, [], []⟩ = 0
    ∧ (⟨0, [], []⟩ : SparseVector).indices = []
    ∧ (⟨0, [], []⟩ : SparseVector).values = [] := by
  refine ⟨?_, rfl, rfl, rfl, rfl, rfl⟩
  intro s ib vb hne
  rw [sparseInitSome, if_neg fun heq => hne (by rw [heq])]

theorem claim_C9_witness :
    SparseVector.init (some 5) (some [0, 0, 0, 0, 0, 0, 0, 1]) (some [63, 128, 0, 0])
      = .error .formatValueError :=
  claim_C9_sparse_init.1 5 [0, 0, 0, 0, 0, 0, 0, 1] [63, 128, 0, 0] (by decide)

/-- C5: corrected — the multiple-of-item-width buffer invariant holds for the
vectors produced by `from_float_list`, `from_database_binary` and the generic
base64 path (shown for the half kind, the one dense kind that uses it), but
not for every public construction path: the raw byte-buffer constructor
accepts buffers of any length unchecked, and the full-precision kind's
`from_float_base64` override stores the decoded bytes without a length
check (see the counterexample theorem). -/
theorem claim_C5_buffer_multiple :
    (∀ (v : List F64) (w : Vector), Vector.from_float_list v = .ok w → 4 ∣ w.data.length)
    ∧ (∀ (v : List F64) (w : HalfVector),
        HalfVector.from_float_list v = .ok w → 2 ∣ w.data.length)
    ∧ (∀ (b : Bytes) (w : Vector), Vector.from_database_binary b = .ok w → 4 ∣ w.data.length)
    ∧ (∀ (b : Bytes) (w : HalfVector),
        HalfVector.from_database_binary b = .ok w → 2 ∣ w.data.length)
    ∧ (∀ (s : List Char) (w : HalfVector),
        HalfVector.from_float_base64 s = .ok w → 2 ∣ w.data.length) := by
  refine ⟨vector_from_float_list_dvd, halfvector_from_float_list_dvd, ?_, ?_, ?_⟩
  · intro b w h
    rw [vector_fdb_eq b] at h
    by_cases h1 : 4 ≤ b.length
    · rw [if_pos h1] at h
      by_cases h2 : b.length = 4 + 4 * fromBytesBE (b.take 2)
      · rw [if_pos h2] at h
        obtain rfl : Vector.mk (b.drop 4) = w := Except.ok.inj h
        exact ⟨fromBytesBE (b.take 2), by rw [List.length_drop]; omega⟩
      · rw [if_neg h2] at h; simp at h
    · rw [if_neg h1] at h; simp at h
  · intro b w h
    rw [halfvector_fdb_eq b] at h
    by_cases h1 : 4 ≤ b.length
    · rw [if_pos h1] at h
      by_cases h2 : b.length = 4 + 2 * fromBytesBE (b.take 2)
      · rw [if_pos h2] at h
        obtain rfl : HalfVector.mk (b.drop 4) = w := Except.ok.inj h
        exact ⟨fromBytesBE (b.take 2), by rw [List.length_drop]; omega⟩
      · rw [if_neg h2] at h; simp at h
    · rw [if_neg h1] at h; simp at h
  · intro s w h
    unfold HalfVector.from_float_base64 fromFloatBase64Via at h
    cases hd : b64decode s with
    | error e => rw [hd, errBind] at h; simp at h
    | ok bs =>
        rw [hd, okBind] at h
        cases hu : structUnpackLE 4 (bs.length / 4) bs with
        | error e => rw [hu, errBind] at h; simp at h
        | ok ws =>
            rw [hu, okBind] at h
            exact halfvector_from_float_list_dvd _ w h

theorem claim_C5_witness : 4 ∣ (Vector.init (some [63, 128, 0, 0])).data.length :=
  claim_C5_buffer_multiple.1 [0x3FF0000000000000] (Vector.init (some [63, 128, 0, 0]))
    (by decide)

/-- C5 counterexample to the claimed universality: the raw constructor
accepts a 1-byte buffer, and the full-precision kind's `from_float_base64`
override accepts base64 text decoding to a 1-byte buffer; neither result has
a buffer length that is a multiple of 4. -/
theorem claim_C5_counterexample :
    ¬ 4 ∣ (Vector.init (some [1])).data.length
    ∧ Vector.from_float_base64 ['A', 'A', '=', '='] = .ok (Vector.init (some [0]))
    ∧ ¬ 4 ∣ (Vector.init (some [0])).data.length :=
  ⟨by decide, by decide, by decide⟩

/-- C6: confirmed — for each of the three kinds, the encode adapter passes
the absent marker through unchanged, encodes an already-constructed vector
object via its own `to_database_binary`, encodes an empty float list as the
kind's empty vector, sends a non-empty list whose head is an actual float
through `from_float_list` (with each item coerced as `struct.pack` does),
fails with the `TypeError`-class unsupported-list-item error naming the type
when the head is an int or any other non-float, and fails with the
`TypeError`-class unsupported-type error naming the type on any other input;
the decode adapter passes the absent marker through and otherwise delegates
to `from_database_binary`. -/
theorem claim_C6_adapter :
    (Vector.toDatabaseBinaryAdapter none = .ok none
      ∧ (∀ a : AnyVector, Vector.toDatabaseBinaryAdapter (some (.obj a))
          = (a.to_database_binary).map some)
      ∧ Vector.toDatabaseBinaryAdapter (some (.floats []))
          = ((Vector.init none).to_database_binary).map some
      ∧ (∀ (b : F64) (items : List PyItem),
          Vector.toDatabaseBinaryAdapter (some (.floats (.float b :: items)))
            = (Vector.fromFloatListPy (.float b :: items)).bind
                fun o => (o.to_database_binary).map some)
      ∧ (∀ (n : Int) (items : List PyItem),
          Vector.toDatabaseBinaryAdapter (some (.floats (.int n :: items)))
            = .error (.unsupportedListItemType "int"))
      ∧ (∀ (tn : String) (items : List PyItem),
          Vector.toDatabaseBinaryAdapter (some (.floats (.other tn :: items)))
            = .error (.unsupportedListItemType tn))
      ∧ (∀ tn : String, Vector.toDatabaseBinaryAdapter (some (.other tn))
          = .error (.unsupportedType tn))
      ∧ Vector.fromDatabaseBinaryAdapter none = .ok none
      ∧ (∀ bs : Bytes, Vector.fromDatabaseBinaryAdapter (some bs)
          = (Vector.from_database_binary bs).map some))
    ∧ (HalfVector.toDatabaseBinaryAdapter none = .ok none
      ∧ (∀ a : AnyVector, HalfVector.toDatabaseBinaryAdapter (some (.obj a))
          = (a.to_database_binary).map some)
      ∧ HalfVector.toDatabaseBinaryAdapter (some (.floats []))
          = ((HalfVector.init none).to_database_binary).map some
      ∧ (∀ (b : F64) (items : List PyItem),
          HalfVector.toDatabaseBinaryAdapter (some (.floats (.float b :: items)))
            = (HalfVector.fromFloatListPy (.float b :: items)).bind
                fun o => (o.to_database_binary).map some)
      ∧ (∀ (n : Int) (items : List PyItem),
          HalfVector.toDatabaseBinaryAdapter (some (.floats (.int n :: items)))
            = .error (.unsupportedListItemType "int"))
      ∧ (∀ (tn : String) (items : List PyItem),
          HalfVector.toDatabaseBinaryAdapter (some (.floats (.other tn :: items)))
            = .error (.unsupportedListItemType tn))
      ∧ (∀ tn : String, HalfVector.toDatabaseBinaryAdapter (some (.other tn))
          = .error (.unsupportedType tn))
      ∧ HalfVector.fromDatabaseBinaryAdapter none = .ok none
      ∧ (∀ bs : Bytes, HalfVector.fromDatabaseBinaryAdapter (some bs)
          = (HalfVector.from_database_binary bs).map some))
    ∧ (SparseVector.toDatabaseBinaryAdapter none = .ok none
      ∧ (∀ a : AnyVector, SparseVector.toDatabaseBinaryAdapter (some (.obj a))
          = (a.to_database_binary).map some)
      ∧ SparseVector.toDatabaseBinaryAdapter (some (.floats []))
          = (SparseVector.emptyInit.to_database_binary).map some
      ∧ (∀ (b : F64) (items : List PyItem),
          SparseVector.toDatabaseBinaryAdapter (some (.floats (.float b :: items)))
            = (SparseVector.fromFloatListPy (.float b :: items)).bind
                fun o => (o.to_database_binary).map some)
      ∧ (∀ (n : Int) (items : List PyItem),
          SparseVector.toDatabaseBinaryAdapter (some (.floats (.int n :: items)))
            = .error (.unsupportedListItemType "int"))
      ∧ (∀ (tn : String) (items : List PyItem),
          SparseVector.toDatabaseBinaryAdapter (some (.floats (.other tn :: items)))
            = .error (.unsupportedListItemType tn))
      ∧ (∀ tn : String, SparseVector.toDatabaseBinaryAdapter (some (.other tn))
          = .error (.unsupportedType tn))
      ∧ SparseVector.fromDatabaseBinaryAdapter none = .ok none
      ∧ (∀ bs : Bytes, SparseVector.fromDatabaseBinaryAdapter (some bs)
          = (SparseVector.from_database_binary bs).map some)) :=
  ⟨⟨rfl, fun _ => rfl, rfl, fun _ _ => rfl, fun _ _ => rfl, fun _ _ => rfl, fun _ => rfl,
    rfl, fun _ => rfl⟩,
   ⟨rfl, fun _ => rfl, rfl, fun _ _ => rfl, fun _ _ => rfl, fun _ _ => rfl, fun _ => rfl,
    rfl, fun _ => rfl⟩,
   ⟨rfl, fun _ => rfl, rfl, fun _ _ => rfl, fun _ _ => rfl, fun _ _ => rfl, fun _ => rfl,
    rfl, fun _ => rfl⟩⟩

/-- C8: corrected — for every float list whose length fits in a signed
32-bit integer and whose elements all pack without overflow,
`SparseVector.from_float_list` succeeds with declared size `len(seq)`, stored
indices exactly the positions with `value != 0` under exact float comparison
in ascending order, and stored values the binary32 roundings (not the exact
values) of the floats at those positions; reading back through
`to_float_list` returns each element at binary32 precision with `+0.0` at
the elided positions. Without the overflow condition the call can raise
instead of yielding a vector (see the counterexample theorem). -/
theorem claim_C8_sparse_from_float_list (v : List F64) (hlen : v.length ≤ 2 ^ 31)
    (h : ∀ x ∈ v, (pyPack4 x).isOk = true) :
    ∃ w, SparseVector.from_float_list v = .ok w
      ∧ w.size = (v.length : Int)
      ∧ w.storedIndices
          = (((List.range v.length).filter fun i => pyNonzero (v.getD i 0)).map
              (Nat.cast : Nat → Int))
      ∧ w.storedValueBits
          = (((List.range v.length).filter fun i => pyNonzero (v.getD i 0)).map
              fun i => f64_to_f32 (v.getD i 0))
      ∧ SparseVector.to_float_list w = .ok (v.map sparseRound) := by
  refine ⟨_, sparse_from_float_list_ok v hlen h, rfl, ?_, ?_, ?_⟩
  · rw [sparse_w_storedIndices v hlen, nonzeroEnum_fst_range]
  · rw [sparse_w_storedValueBits v, ← nonzeroEnum_fst_range]
    rw [List.map_map, List.map_map]
    refine List.map_congr_left fun p hp => ?_
    obtain ⟨_, _, h3, _⟩ := nonzeroEnum_mem v 0 p hp
    rw [Nat.sub_zero] at h3
    exact congrArg f64_to_f32 h3.symm
  · have h2 := sparse_roundtrip v hlen h
    rw [sparse_from_float_list_ok v hlen h, okBindE] at h2
    exact h2

theorem claim_C8_witness :
    ∃ w, SparseVector.from_float_list [0, 0x400C000000000000, 0, 0xC000000000000000]
          = .ok w
      ∧ w.size = (([0, 0x400C000000000000, 0, 0xC000000000000000] : List F64).length : Int)
      ∧ w.storedIndices
          = (((List.range ([0, 0x400C000000000000, 0, 0xC000000000000000] : List F64).length).filter
                fun i => pyNonzero (([0, 0x400C000000000000, 0, 0xC000000000000000] : List F64).getD i 0)).map
              (Nat.cast : Nat → Int))
      ∧ w.storedValueBits
          = (((List.range ([0, 0x400C000000000000, 0, 0xC000000000000000] : List F64).length).filter
                fun i => pyNonzero (([0, 0x400C000000000000, 0, 0xC000000000000000] : List F64).getD i 0)).map
              fun i => f64_to_f32 (([0, 0x400C000000000000, 0, 0xC000000000000000] : List F64).getD i 0))
      ∧ SparseVector.to_float_list w
          = .ok (([0, 0x400C000000000000, 0, 0xC000000000000000] : List F64).map sparseRound) :=
  claim_C8_sparse_from_float_list [0, 0x400C000000000000, 0, 0xC000000000000000]
    (by decide) (by decide)

/-- C8 counterexample to the claim as a total statement: for a value too
large for binary32 (the double `2.0 ^ 200`), `from_float_list` raises the
`OverflowError` from `struct.pack` instead of yielding a vector. -/
theorem claim_C8_counterexample :
    SparseVector.from_float_list [0x4C70000000000000] = .error .overflowError := by
  decide

/-- C10: confirmed — `to_float_list` is partial over stored indices: if some
stored index is at least the declared size the call fails with the index
error, while if every stored index lies in `[-size, size)` (negative ones
included) the call succeeds, assigning each value at the Python-normalized
position (`size + index` for a negative index) instead of rejecting it. -/
theorem claim_C10_indexing (w : SparseVector)
    (hw : w.indices.length = w.values.length) (hdvd : 4 ∣ w.indices.length) :
    ((∃ i ∈ w.storedIndices, w.size ≤ i) → w.to_float_list = .error .indexError)
    ∧ ((∀ i ∈ w.storedIndices, -w.size ≤ i ∧ i < w.size) →
        w.to_float_list = .ok (setAllNat (List.replicate w.size.toNat 0)
          ((w.storedIndices.zip w.storedWideValues).map
            fun p => (pyNormIdx w.size.toNat p.1, p.2)))) := by
  have hto : w.to_float_list
      = assignLoop (List.replicate w.size.toNat 0)
          (w.storedIndices.zip w.storedWideValues) := by
    unfold SparseVector.to_float_list SparseVector.nnz structUnpackBE
    rw [if_pos (Nat.mul_div_cancel' hdvd).symm,
      if_pos (by rw [← hw]; exact (Nat.mul_div_cancel' hdvd).symm)]
    simp only [okMapE, okBind]
    rfl
  have hlens : w.storedIndices.length = w.storedWideValues.length := by
    simp [SparseVector.storedIndices, SparseVector.storedWideValues,
      SparseVector.storedValueBits, chunksBE_length]
  constructor
  · intro hex
    obtain ⟨i, hi, hile⟩ := hex
    rw [hto]
    obtain ⟨y, hy⟩ := exists_zip_pair _ _ hlens i hi
    refine assignLoop_err _ _ ⟨(i, y), hy, ?_⟩
    rw [List.length_replicate]
    dsimp only
    omega
  · intro hall
    rw [hto]
    rw [assignLoop_ok]
    · rw [List.length_replicate]
    · intro p hp
      obtain ⟨a, b⟩ := p
      have hma := (List.of_mem_zip hp).1
      have hr := hall a hma
      rw [List.length_replicate]
      dsimp only
      omega

/-- C7: corrected — the override agrees with the generic base-class recipe
only if the float reinterpretation step is read in big-endian (wire) byte
order: for base64 text decoding to a byte string whose length is a multiple
of 4 and whose 4-byte groups are not binary32 NaN patterns, the override
(`cls(b64decode(s))`) equals the spec-modelled big-endian reading of the
generic path. The source's actual generic path uses a prefixless `unpack`
format — host byte order, little-endian — and disagrees with the override
on byte-order-asymmetric buffers (see the counterexample theorem). -/
theorem claim_C7_base64_override (s : List Char) (bs : Bytes)
    (hd : b64decode s = .ok bs) (hlen : bs.length % 4 = 0)
    (hn : ∀ w ∈ chunksBE 4 (bs.length / 4) bs, f32fmt.isNaN w = false) :
    Vector.from_float_base64 s = Vector.fromFloatBase64BigEndian s := by
  unfold Vector.from_float_base64 Vector.fromFloatBase64BigEndian
  rw [hd, okMapE, okBind]
  unfold structUnpackBE
  rw [if_pos (Nat.mul_div_cancel' (Nat.dvd_of_mod_eq_zero hlen)).symm, okBind]
  unfold Vector.from_float_list packFloat32List
  rw [exceptMapM_map_ok pyPack4 f32_to_f64 id (chunksBE 4 (bs.length / 4) bs)
    (fun w hw => pyPack4_f32_to_f64 w
      (lt_of_lt_of_eq (chunksBE_lt 4 (bs.length / 4) bs (b64decode_bytes_lt s bs hd) w hw)
        (by norm_num))
      (hn w hw))]
  rw [okMapE, List.map_id, okMapE]
  rw [flatten_chunksBE 4 (bs.length / 4) bs
    (Nat.mul_div_cancel' (Nat.dvd_of_mod_eq_zero hlen)).symm
    (b64decode_bytes_lt s bs hd)]

theorem claim_C7_witness :
    Vector.from_float_base64 ['A', 'A', 'C', 'A', 'P', 'w', '=', '=']
      = Vector.fromFloatBase64BigEndian ['A', 'A', 'C', 'A', 'P', 'w', '=', '='] :=
  claim_C7_base64_override ['A', 'A', 'C', 'A', 'P', 'w', '=', '='] [0, 0, 128, 63]
    (by decide) (by decide) (by decide)

/-- C7 counterexample to the claim about the source's actual generic path:
on the base64 text for the big-endian wire bytes of `1.0f` the override
keeps the bytes `[0, 0, 128, 63]` as stored, while the inherited generic
path (little-endian reinterpretation) produces the byte-swapped buffer
`[63, 128, 0, 0]`; the two vectors differ. -/
theorem claim_C7_counterexample :
    Vector.from_float_base64 ['A', 'A', 'C', 'A', 'P', 'w', '=', '=']
        = .ok (Vector.init (some [0, 0, 128, 63]))
    ∧ Vector.fromFloatBase64Inherited ['A', 'A', 'C', 'A', 'P', 'w', '=', '=']
        = .ok (Vector.init (some [63, 128, 0, 0]))
    ∧ Vector.init (some [0, 0, 128, 63]) ≠ Vector.init (some [63, 128, 0, 0]) :=
  ⟨by decide, by decide, by decide⟩

/-- C2: corrected — the wire encode/decode pair is a round trip only for
well-formed vectors, not for all values the constructors can produce: for a
dense vector it holds when the buffer length is a multiple of the item width
and the dimensionality fits an unsigned 16-bit header field, and for a
sparse vector when the two buffers have equal length, the index buffer is a
multiple of 4 bytes, the size fits a signed 32-bit field and the entry count
fits a signed 32-bit field. The unchecked raw constructor admits values
outside these conditions for which the round trip fails (see the
counterexample theorem). -/
theorem claim_C2_wire_roundtrip :
    (∀ v : Vector, 4 ∣ v.data.length → v.data.length / 4 < 2 ^ 16 →
      (v.to_database_binary).bind Vector.from_database_binary = .ok v)
    ∧ (∀ v : HalfVector, 2 ∣ v.data.length → v.data.length / 2 < 2 ^ 16 →
      (v.to_database_binary).bind HalfVector.from_database_binary = .ok v)
    ∧ (∀ v : SparseVector, v.indices.length = v.values.length → 4 ∣ v.indices.length →
      -(2 ^ 31) ≤ v.size → v.size < 2 ^ 31 → v.indices.length / 4 < 2 ^ 31 →
      (v.to_database_binary).bind SparseVector.from_database_binary = .ok v) := by
  refine ⟨?_, ?_, ?_⟩
  · intro v hdvd hsz
    unfold Vector.to_database_binary packUInt16Pair Vector.size
    rw [if_pos (And.intro hsz (by norm_num))]
    rw [okMapE, okBindE, vector_fdb_eq]
    have h1 := toBytesBE_length 2 (v.data.length / 4)
    have hlen : ((toBytesBE 2 (v.data.length / 4) ++ toBytesBE 2 0) ++ v.data).length
        = 4 + v.data.length := by
      rw [List.length_append, List.length_append, toBytesBE_length, toBytesBE_length]
    have htake : ((toBytesBE 2 (v.data.length / 4) ++ toBytesBE 2 0) ++ v.data).take 2
        = toBytesBE 2 (v.data.length / 4) := by
      rw [List.append_assoc]
      exact take_append_of_len _ _ 2 h1
    have hdrop : ((toBytesBE 2 (v.data.length / 4) ++ toBytesBE 2 0) ++ v.data).drop 4
        = v.data :=
      drop_append_of_len _ _ 4 (by rw [List.length_append, toBytesBE_length, toBytesBE_length])
    rw [hlen, htake, fromBytesBE_toBytesBE,
      Nat.mod_eq_of_lt (show v.data.length / 4 < 256 ^ 2 by norm_num; omega), hdrop]
    rw [if_pos (by omega), if_pos (by omega)]
  · intro v hdvd hsz
    unfold HalfVector.to_database_binary packUInt16Pair HalfVector.size
    rw [if_pos (And.intro hsz (by norm_num))]
    rw [okMapE, okBindE, halfvector_fdb_eq]
    have h1 := toBytesBE_length 2 (v.data.length / 2)
    have hlen : ((toBytesBE 2 (v.data.length / 2) ++ toBytesBE 2 0) ++ v.data).length
        = 4 + v.data.length := by
      rw [List.length_append, List.length_append, toBytesBE_length, toBytesBE_length]
    have htake : ((toBytesBE 2 (v.data.length / 2) ++ toBytesBE 2 0) ++ v.data).take 2
        = toBytesBE 2 (v.data.length / 2) := by
      rw [List.append_assoc]
      exact take_append_of_len _ _ 2 h1
    have hdrop : ((toBytesBE 2 (v.data.length / 2) ++ toBytesBE 2 0) ++ v.data).drop 4
        = v.data :=
      drop_append_of_len _ _ 4 (by rw [List.length_append, toBytesBE_length, toBytesBE_length])
    rw [hlen, htake, fromBytesBE_toBytesBE,
      Nat.mod_eq_of_lt (show v.data.length / 2 < 256 ^ 2 by norm_num; omega), hdrop]
    rw [if_pos (by omega), if_pos (by omega)]
  · intro v hiv hdvd hs1 hs2 hnnz
    rw [sparse_tdb_eq v hs1 hs2 hnnz, okBindE]
    rw [List.append_assoc (toBytesBE 4 (v.size % (2 ^ 32 : Int)).toNat
      ++ toBytesBE 4 (v.indices.length / 4) ++ toBytesBE 4 0) v.indices v.values]
    rw [sparse_fdb_eq _ _ _ _ (unpackInt32Triple_header (v.size % (2 ^ 32 : Int)).toNat
      (v.indices.length / 4) 0 (v.indices ++ v.values))]
    have e1 : toSigned32 ((v.size % (2 ^ 32 : Int)).toNat % 2 ^ 32) = v.size := by
      rw [Nat.mod_eq_of_lt (by omega)]
      exact toSigned32_emod v.size hs1 hs2
    have e2 : toSigned32 ((v.indices.length / 4) % 2 ^ 32)
        = ((v.indices.length / 4 : Nat) : Int) := by
      rw [Nat.mod_eq_of_lt (by omega)]
      exact toSigned32_ofNat _ hnnz
    rw [e1, e2]
    have hcast : (4 : Int) * ((v.indices.length / 4 : Nat) : Int)
        = (v.indices.length : Int) := by omega
    rw [hcast]
    have hhdr : (toBytesBE 4 (v.size % (2 ^ 32 : Int)).toNat
        ++ toBytesBE 4 (v.indices.length / 4) ++ toBytesBE 4 0).length = 12 := by
      rw [List.length_append, List.length_append, toBytesBE_length, toBytesBE_length,
        toBytesBE_length]
    rw [(sparse_slices _ v.indices v.values hhdr).1, (sparse_slices _ v.indices v.values hhdr).2]
    rw [sparseInitSome, if_pos hiv]

theorem claim_C2_witness :
    ((Vector.mk [63, 128, 0, 0]).to_database_binary).bind Vector.from_database_binary
        = .ok (Vector.mk [63, 128, 0, 0])
    ∧ ((HalfVector.mk [60, 0]).to_database_binary).bind HalfVector.from_database_binary
        = .ok (HalfVector.mk [60, 0])
    ∧ ((SparseVector.mk 2 [0, 0, 0, 1] [63, 128, 0, 0]).to_database_binary).bind
          SparseVector.from_database_binary
        = .ok (SparseVector.mk 2 [0, 0, 0, 1] [63, 128, 0, 0]) :=
  ⟨claim_C2_wire_roundtrip.1 ⟨[63, 128, 0, 0]⟩ (by decide) (by decide),
   claim_C2_wire_roundtrip.2.1 ⟨[60, 0]⟩ (by decide) (by decide),
   claim_C2_wire_roundtrip.2.2 ⟨2, [0, 0, 0, 1], [63, 128, 0, 0]⟩ (by decide) (by decide)
     (by decide) (by decide) (by decide)⟩

/-- C2 counterexample to the claim over all constructible values: the
unchecked raw constructor accepts a 1-byte buffer, which encodes with
declared dimensionality 0 and then fails to decode; and a sparse vector
constructed with size `2 ^ 31` fails already while encoding. -/
theorem claim_C2_counterexample :
    ((Vector.mk [1]).to_database_binary).bind Vector.from_database_binary
        = .error .formatValueError
    ∧ ((SparseVector.mk (2 ^ 31) [] []).to_database_binary).bind
          SparseVector.from_database_binary
        = .error .structError :=
  ⟨by decide, by decide⟩

theorem claim_C10_witness :
    SparseVector.to_float_list ⟨3, [255, 255, 255, 255], [64, 64, 0, 0]⟩
      = .ok (setAllNat (List.replicate ((3 : Int)).toNat 0)
          (((SparseVector.storedIndices ⟨3, [255, 255, 255, 255], [64, 64, 0, 0]⟩).zip
            (SparseVector.storedWideValues ⟨3, [255, 255, 255, 255], [64, 64, 0, 0]⟩)).map
            fun p => (pyNormIdx ((3 : Int)).toNat p.1, p.2))) :=
  (claim_C10_indexing ⟨3, [255, 255, 255, 255], [64, 64, 0, 0]⟩ (by decide) (by decide)).2
    (by decide)

end AsyncpgVector
